import Mathlib

/-!
Verification development for the `bcndecode` BCn texture decoder
(`src/decode.rs`).  Every definition in this file is a shallow embedding of
the corresponding Rust item; machine integers (`u8`, `u16`, `u32`, `usize`)
are modelled as `Nat` with explicit `% 2^w` or `&&& mask` at the points where
the source performs a narrowing cast, and `isize` values that can be negative
are modelled as `Int`.  Byte buffers (`&[u8]`, `Vec<u8>`) are `List Nat`;
out-of-range reads use `List.getD _ 0` and out-of-range writes use
`List.set`, which are only exercised in bounds by the decoder (matching the
panic-free executions of the source).
-/

namespace Bcn

/-- Error kind used by `decode_rust` (`src/decode.rs` uses
`Error::InvalidImageSize` and `Error::InvalidPixelFormat`; the crate's error
enumeration also carries `ImageDecodingError` and `NotImplemented`, see
`src/tests.rs`). -/
inductive Error where
  | ImageDecodingError
  | InvalidImageSize
  | InvalidPixelFormat
  | NotImplemented
deriving DecidableEq, Repr

/-- Source encodings handled by `decode_bcn` (`src/decode.rs:207`). -/
inductive BcnEncoding where
  | Bc1
  | Bc2
  | Bc3
  | Bc4
  | Bc5
  | Bc6H
deriving DecidableEq, Repr

/-- Output pixel formats (`BcnDecoderFormat`), including `LUM` used by the
BC4 path (`src/decode.rs:135-148`). -/
inductive BcnDecoderFormat where
  | RGBA
  | BGRA
  | ARGB
  | ABGR
  | LUM
deriving DecidableEq, Repr

/-- The `RGBA` element type (`src/decode.rs:48-55`), 4 bytes per pixel in
field order `r, g, b, a` (the struct is `repr(packed)`). -/
structure Rgba where
  r : Nat
  g : Nat
  b : Nat
  a : Nat
deriving DecidableEq, Repr

instance : Inhabited Rgba := ⟨⟨0, 0, 0, 0⟩⟩

/-- Byte view of one packed `RGBA` value. -/
def rgbaBytes (p : Rgba) : List Nat := [p.r, p.g, p.b, p.a]

/-- Byte view of a `[RGBA; 16]` staging block, as produced by
`to_byte_ptr` (`src/decode.rs:246`). -/
def rgbaListBytes (l : List Rgba) : List Nat := l.flatMap rgbaBytes

/-- `load_16` (`src/decode.rs:308`): little-endian 16-bit load, here with an
explicit byte offset instead of a sub-slice. -/
def load_16 (source : List Nat) (off : Nat) : Nat :=
  source.getD off 0 ||| (source.getD (off + 1) 0 <<< 8)

/-- `load_32` (`src/decode.rs:312`): little-endian 32-bit load. -/
def load_32 (source : List Nat) (off : Nat) : Nat :=
  source.getD off 0 ||| (source.getD (off + 1) 0 <<< 8) |||
    (source.getD (off + 2) 0 <<< 16) ||| (source.getD (off + 3) 0 <<< 24)

/-- `get_bit` (`src/decode.rs:2114`). -/
def get_bit (src : List Nat) (bit : Nat) : Nat :=
  (src.getD (bit >>> 3) 0 >>> (bit &&& 7)) &&& 1

/-- `get_bits` (`src/decode.rs:2120`).  The final `as u8` cast of the source
is modelled by `&&& 0xff`; it is the identity for the `count ≤ 8` calls the
decoder performs. -/
def get_bits (src : List Nat) (bit : Nat) (count : Nat) : Nat :=
  if count = 0 then 0
  else
    let byi := bit >>> 3
    let b := bit &&& 7
    if b + count ≤ 8 then (src.getD byi 0 >>> b) &&& ((1 <<< count) - 1)
    else
      let x := src.getD byi 0 ||| (src.getD (byi + 1) 0 <<< 8)
      ((x >>> b) &&& ((1 <<< count) - 1)) &&& 0xff

/-- `decode_565` (`src/decode.rs:2195`).  The three `as u8` casts are
modelled by `% 256` (the values are already below 256). -/
def decode_565 (x : Nat) : Rgba :=
  let r := (x &&& 0xf800) >>> 8
  let r := r ||| (r >>> 5)
  let g := (x &&& 0x7e0) >>> 3
  let g := g ||| (g >>> 6)
  let b := (x &&& 0x1f) <<< 3
  let b := b ||| (b >>> 5)
  ⟨r % 256, g % 256, b % 256, 0xff⟩

/-- The 4-entry BC1 palette computed by `decode_bc1_color`
(`src/decode.rs:2219-2247`), factored out of the block decode; the `as u8`
casts are `% 256`. -/
def bc1Palette (c0 c1 : Nat) : List Rgba :=
  let p0 := decode_565 c0
  let p1 := decode_565 c1
  let r0 := p0.r
  let g0 := p0.g
  let b0 := p0.b
  let r1 := p1.r
  let g1 := p1.g
  let b1 := p1.b
  if c1 < c0 then
    [p0, p1,
      ⟨(2 * r0 + 1 * r1) / 3 % 256, (2 * g0 + 1 * g1) / 3 % 256,
        (2 * b0 + 1 * b1) / 3 % 256, 0xff⟩,
      ⟨(1 * r0 + 2 * r1) / 3 % 256, (1 * g0 + 2 * g1) / 3 % 256,
        (1 * b0 + 2 * b1) / 3 % 256, 0xff⟩]
  else
    [p0, p1,
      ⟨(r0 + r1) / 2 % 256, (g0 + g1) / 2 % 256, (b0 + b1) / 2 % 256, 0xff⟩,
      ⟨0, 0, 0, 0⟩]

/-- `decode_bc1_color` (`src/decode.rs:2213`): load the two 16-bit endpoints
and the 32-bit LUT (`Bc1Color::load`, lines 81-85) and map each of the 16
pixels through the palette. -/
def decode_bc1_color (source : List Nat) : List Rgba :=
  let c0 := load_16 source 0
  let c1 := load_16 source 2
  let lut := load_32 source 4
  let p := bc1Palette c0 c1
  (List.range 16).map (fun n => p.getD (3 &&& (lut >>> (2 * n))) default)

/-- The 8-entry BC3 alpha palette computed by `decode_bc3_alpha`
(`src/decode.rs:2259-2278`), factored out; `as u8` casts are `% 256`. -/
def bc3AlphaPalette (a0 a1 : Nat) : List Nat :=
  if a1 < a0 then
    [a0 % 256, a1 % 256,
      (6 * a0 + 1 * a1) / 7 % 256, (5 * a0 + 2 * a1) / 7 % 256,
      (4 * a0 + 3 * a1) / 7 % 256, (3 * a0 + 4 * a1) / 7 % 256,
      (2 * a0 + 5 * a1) / 7 % 256, (1 * a0 + 6 * a1) / 7 % 256]
  else
    [a0 % 256, a1 % 256,
      (4 * a0 + 1 * a1) / 5 % 256, (3 * a0 + 2 * a1) / 5 % 256,
      (2 * a0 + 3 * a1) / 5 % 256, (1 * a0 + 4 * a1) / 5 % 256,
      0, 0xff]

/-- `decode_bc3_alpha` (`src/decode.rs:2255`): `dst` is the byte view of the
staging block, written with the given `stride` and channel offset `o`.
`Bc3Alpha::load` (lines 97-101) reads `a0`, `a1` and the 6 LUT bytes. -/
def decode_bc3_alpha (dst source : List Nat) (stride o : Nat) : List Nat :=
  let a0 := source.getD 0 0
  let a1 := source.getD 1 0
  let a := bc3AlphaPalette a0 a1
  let lut1 := source.getD 2 0 ||| (source.getD 3 0 <<< 8) ||| (source.getD 4 0 <<< 16)
  let d1 := (List.range 8).foldl
    (fun d n => d.set (stride * n + o) (a.getD (7 &&& (lut1 >>> (3 * n))) 0)) dst
  let lut2 := source.getD 5 0 ||| (source.getD 6 0 <<< 8) ||| (source.getD 7 0 <<< 16)
  (List.range 8).foldl
    (fun d n => d.set (stride * (8 + n) + o) (a.getD (7 &&& (lut2 >>> (3 * n))) 0)) d1

/-- `decode_bc1_block` (`src/decode.rs:338`), as the byte view of the
16-pixel staging array. -/
def decode_bc1_block (source : List Nat) : List Nat :=
  rgbaListBytes (decode_bc1_color source)

/-- `decode_bc2_block` (`src/decode.rs:342`): BC1 color from bytes 8..16,
then the 16 4-bit alphas from bytes 0..8, each replicated to 8 bits. -/
def decode_bc2_block (source : List Nat) : List Nat :=
  let col := decode_bc1_color (source.drop 8)
  rgbaListBytes ((List.range 16).map (fun n =>
    let biti := n * 4
    let byi := biti >>> 3
    let av := 0xf &&& (source.getD byi 0 >>> (biti &&& 7))
    let av := ((av <<< 4) ||| av) % 256
    { col.getD n default with a := av }))

/-- `decode_bc3_block` (`src/decode.rs:353`): BC1 color from bytes 8..16,
then the BC3 alpha block written into the `a` slot (stride 4, offset 3). -/
def decode_bc3_block (source : List Nat) : List Nat :=
  decode_bc3_alpha (rgbaListBytes (decode_bc1_color (source.drop 8))) source 4 3

/-- `decode_bc4_block` (`src/decode.rs:360`): one BC3 alpha block written as
the single byte of each `LUM` pixel (the staging array starts zeroed). -/
def decode_bc4_block (source : List Nat) : List Nat :=
  decode_bc3_alpha (List.replicate 16 0) source 1 0

/-- `decode_bc5_block` (`src/decode.rs:366`): two BC3 alpha blocks written
into the `r` and `g` slots of the zero-initialised 16-pixel RGBA block. -/
def decode_bc5_block (source : List Nat) : List Nat :=
  let dst := decode_bc3_alpha (List.replicate 64 0) source 4 0
  decode_bc3_alpha dst (source.drop 8) 4 1

/-- `BC6_BIT_PACKINGS` (`src/decode.rs:691`): 14 rows of 75 bit-placement
descriptors. -/
def bc6BitPackings : List (List Nat) := [
  [116, 132, 176, 0, 1, 2, 3, 4, 5, 6, 7, 8, 9, 16, 17, 18, 19, 20, 21, 22, 23, 24, 25, 32, 33, 34, 35, 36, 37, 38, 39, 40, 41, 48, 49, 50, 51, 52, 164, 112, 113, 114, 115, 64, 65, 66, 67, 68, 172, 160, 161, 162, 163, 80, 81, 82, 83, 84, 173, 128, 129, 130, 131, 96, 97, 98, 99, 100, 174, 144, 145, 146, 147, 148, 175],
  [117, 164, 165, 0, 1, 2, 3, 4, 5, 6, 172, 173, 132, 16, 17, 18, 19, 20, 21, 22, 133, 174, 116, 32, 33, 34, 35, 36, 37, 38, 175, 177, 176, 48, 49, 50, 51, 52, 53, 112, 113, 114, 115, 64, 65, 66, 67, 68, 69, 160, 161, 162, 163, 80, 81, 82, 83, 84, 85, 128, 129, 130, 131, 96, 97, 98, 99, 100, 101, 144, 145, 146, 147, 148, 149],
  [0, 1, 2, 3, 4, 5, 6, 7, 8, 9, 16, 17, 18, 19, 20, 21, 22, 23, 24, 25, 32, 33, 34, 35, 36, 37, 38, 39, 40, 41, 48, 49, 50, 51, 52, 10, 112, 113, 114, 115, 64, 65, 66, 67, 26, 172, 160, 161, 162, 163, 80, 81, 82, 83, 42, 173, 128, 129, 130, 131, 96, 97, 98, 99, 100, 174, 144, 145, 146, 147, 148, 175, 0, 0, 0],
  [0, 1, 2, 3, 4, 5, 6, 7, 8, 9, 16, 17, 18, 19, 20, 21, 22, 23, 24, 25, 32, 33, 34, 35, 36, 37, 38, 39, 40, 41, 48, 49, 50, 51, 10, 164, 112, 113, 114, 115, 64, 65, 66, 67, 68, 26, 160, 161, 162, 163, 80, 81, 82, 83, 42, 173, 128, 129, 130, 131, 96, 97, 98, 99, 172, 174, 144, 145, 146, 147, 116, 175, 0, 0, 0],
  [0, 1, 2, 3, 4, 5, 6, 7, 8, 9, 16, 17, 18, 19, 20, 21, 22, 23, 24, 25, 32, 33, 34, 35, 36, 37, 38, 39, 40, 41, 48, 49, 50, 51, 10, 132, 112, 113, 114, 115, 64, 65, 66, 67, 26, 172, 160, 161, 162, 163, 80, 81, 82, 83, 84, 42, 128, 129, 130, 131, 96, 97, 98, 99, 173, 174, 144, 145, 146, 147, 176, 175, 0, 0, 0],
  [0, 1, 2, 3, 4, 5, 6, 7, 8, 132, 16, 17, 18, 19, 20, 21, 22, 23, 24, 116, 32, 33, 34, 35, 36, 37, 38, 39, 40, 176, 48, 49, 50, 51, 52, 164, 112, 113, 114, 115, 64, 65, 66, 67, 68, 172, 160, 161, 162, 163, 80, 81, 82, 83, 84, 173, 128, 129, 130, 131, 96, 97, 98, 99, 100, 174, 144, 145, 146, 147, 148, 175, 0, 0, 0],
  [0, 1, 2, 3, 4, 5, 6, 7, 164, 132, 16, 17, 18, 19, 20, 21, 22, 23, 174, 116, 32, 33, 34, 35, 36, 37, 38, 39, 175, 176, 48, 49, 50, 51, 52, 53, 112, 113, 114, 115, 64, 65, 66, 67, 68, 172, 160, 161, 162, 163, 80, 81, 82, 83, 84, 173, 128, 129, 130, 131, 96, 97, 98, 99, 100, 101, 144, 145, 146, 147, 148, 149, 0, 0, 0],
  [0, 1, 2, 3, 4, 5, 6, 7, 172, 132, 16, 17, 18, 19, 20, 21, 22, 23, 117, 116, 32, 33, 34, 35, 36, 37, 38, 39, 165, 176, 48, 49, 50, 51, 52, 164, 112, 113, 114, 115, 64, 65, 66, 67, 68, 69, 160, 161, 162, 163, 80, 81, 82, 83, 84, 173, 128, 129, 130, 131, 96, 97, 98, 99, 100, 174, 144, 145, 146, 147, 148, 175, 0, 0, 0],
  [0, 1, 2, 3, 4, 5, 6, 7, 173, 132, 16, 17, 18, 19, 20, 21, 22, 23, 133, 116, 32, 33, 34, 35, 36, 37, 38, 39, 177, 176, 48, 49, 50, 51, 52, 164, 112, 113, 114, 115, 64, 65, 66, 67, 68, 172, 160, 161, 162, 163, 80, 81, 82, 83, 84, 85, 128, 129, 130, 131, 96, 97, 98, 99, 100, 174, 144, 145, 146, 147, 148, 175, 0, 0, 0],
  [0, 1, 2, 3, 4, 5, 164, 172, 173, 132, 16, 17, 18, 19, 20, 21, 117, 133, 174, 116, 32, 33, 34, 35, 36, 37, 165, 175, 177, 176, 48, 49, 50, 51, 52, 53, 112, 113, 114, 115, 64, 65, 66, 67, 68, 69, 160, 161, 162, 163, 80, 81, 82, 83, 84, 85, 128, 129, 130, 131, 96, 97, 98, 99, 100, 101, 144, 145, 146, 147, 148, 149, 0, 0, 0],
  [0, 1, 2, 3, 4, 5, 6, 7, 8, 9, 16, 17, 18, 19, 20, 21, 22, 23, 24, 25, 32, 33, 34, 35, 36, 37, 38, 39, 40, 41, 48, 49, 50, 51, 52, 53, 54, 55, 56, 57, 64, 65, 66, 67, 68, 69, 70, 71, 72, 73, 80, 81, 82, 83, 84, 85, 86, 87, 88, 89, 0, 0, 0, 0, 0, 0, 0, 0, 0, 0, 0, 0, 0, 0, 0],
  [0, 1, 2, 3, 4, 5, 6, 7, 8, 9, 16, 17, 18, 19, 20, 21, 22, 23, 24, 25, 32, 33, 34, 35, 36, 37, 38, 39, 40, 41, 48, 49, 50, 51, 52, 53, 54, 55, 56, 10, 64, 65, 66, 67, 68, 69, 70, 71, 72, 26, 80, 81, 82, 83, 84, 85, 86, 87, 88, 42, 0, 0, 0, 0, 0, 0, 0, 0, 0, 0, 0, 0, 0, 0, 0],
  [0, 1, 2, 3, 4, 5, 6, 7, 8, 9, 16, 17, 18, 19, 20, 21, 22, 23, 24, 25, 32, 33, 34, 35, 36, 37, 38, 39, 40, 41, 48, 49, 50, 51, 52, 53, 54, 55, 11, 10, 64, 65, 66, 67, 68, 69, 70, 71, 27, 26, 80, 81, 82, 83, 84, 85, 86, 87, 43, 42, 0, 0, 0, 0, 0, 0, 0, 0, 0, 0, 0, 0, 0, 0, 0],
  [0, 1, 2, 3, 4, 5, 6, 7, 8, 9, 16, 17, 18, 19, 20, 21, 22, 23, 24, 25, 32, 33, 34, 35, 36, 37, 38, 39, 40, 41, 48, 49, 50, 51, 15, 14, 13, 12, 11, 10, 64, 65, 66, 67, 31, 30, 29, 28, 27, 26, 80, 81, 82, 83, 47, 46, 45, 44, 43, 42, 0, 0, 0, 0, 0, 0, 0, 0, 0, 0, 0, 0, 0, 0, 0]]

/-- `BC7_SI2` (`src/decode.rs:1774`): 2-subset partition maps, 1 bit per
pixel. -/
def bc7SI2 : List Nat := [
  0xcccc, 0x8888, 0xeeee, 0xecc8, 0xc880, 0xfeec, 0xfec8, 0xec80, 0xc800, 0xffec, 0xfe80, 0xe800, 0xffe8, 0xff00, 0xfff0, 0xf000, 0xf710, 0x008e, 0x7100, 0x08ce, 0x008c, 0x7310, 0x3100, 0x8cce, 0x088c, 0x3110, 0x6666, 0x366c, 0x17e8, 0x0ff0, 0x718e, 0x399c, 0xaaaa, 0xf0f0, 0x5a5a, 0x33cc, 0x3c3c, 0x55aa, 0x9696, 0xa55a, 0x73ce, 0x13c8, 0x324c, 0x3bdc, 0x6996, 0xc33c, 0x9966, 0x0660, 0x0272, 0x04e4, 0x4e40, 0x2720, 0xc936, 0x936c, 0x39c6, 0x639c, 0x9336, 0x9cc6, 0x817e, 0xe718, 0xccf0, 0x0fcc, 0x7744, 0xee22]

/-- `BC7_SI3` (`src/decode.rs:1842`): 3-subset partition maps, 2 bits per
pixel. -/
def bc7SI3 : List Nat := [
  0xaa685050, 0x6a5a5040, 0x5a5a4200, 0x5450a0a8, 0xa5a50000, 0xa0a05050, 0x5555a0a0, 0x5a5a5050, 0xaa550000, 0xaa555500, 0xaaaa5500, 0x90909090, 0x94949494, 0xa4a4a4a4, 0xa9a59450, 0x2a0a4250, 0xa5945040, 0x0a425054, 0xa5a5a500, 0x55a0a0a0, 0xa8a85454, 0x6a6a4040, 0xa4a45000, 0x1a1a0500, 0x0050a4a4, 0xaaa59090, 0x14696914, 0x69691400, 0xa08585a0, 0xaa821414, 0x50a4a450, 0x6a5a0200, 0xa9a58000, 0x5090a0a8, 0xa8a09050, 0x24242424, 0x00aa5500, 0x24924924, 0x24499224, 0x50a50a50, 0x500aa550, 0xaaaa4444, 0x66660000, 0xa5a0a5a0, 0x50a050a0, 0x69286928, 0x44aaaa44, 0x66666600, 0xaa444444, 0x54a854a8, 0x95809580, 0x96969600, 0xa85454a8, 0x80959580, 0xaa141414, 0x96960000, 0xaaaa1414, 0xa05050a0, 0xa0a5a5a0, 0x96000000, 0x40804080, 0xa9a8a9a8, 0xaaaaaa44, 0x2a4a5254]

/-- `BC7_AI0` (`src/decode.rs:1911`): anchor pixel index for the second
subset. -/
def bc7AI0 : List Nat := [
  15, 15, 15, 15, 15, 15, 15, 15, 15, 15, 15, 15, 15, 15, 15, 15, 15, 2, 8, 2, 2, 8, 8, 15, 2, 8, 2, 2, 8, 8, 2, 2, 15, 15, 6, 8, 2, 8, 15, 15, 2, 8, 2, 2, 2, 15, 15, 6, 6, 2, 6, 8, 15, 15, 2, 2, 15, 15, 15, 15, 15, 2, 2, 15]

/-- `BC7_WEIGHTS2/3/4` (`src/decode.rs:677-679`). -/
def bc7Weights2 : List Nat := [0, 21, 43, 64]


def bc7Weights3 : List Nat := [0, 9, 18, 27, 37, 46, 55, 64]


def bc7Weights4 : List Nat := [0, 4, 9, 13, 17, 21, 26, 30, 34, 38, 43, 47, 51, 55, 60, 64]

/-- `bc7_get_weights` (`src/decode.rs:681`). -/
def bc7_get_weights (n : Nat) : List Nat :=
  if n = 2 then bc7Weights2
  else if n = 3 then bc7Weights3
  else bc7Weights4

/-- `bc7_get_subset` (`src/decode.rs:2185`). -/
def bc7_get_subset (ns partition n : Nat) : Nat :=
  if ns = 2 then 1 &&& (bc7SI2.getD partition 0 >>> n)
  else if ns = 3 then 3 &&& (bc7SI3.getD partition 0 >>> (2 * n))
  else 0

/-- `Bc6ModeInfo` (`src/decode.rs:532`). -/
structure Bc6ModeInfo where
  ns : Nat
  tr : Nat
  pb : Nat
  epb : Nat
  rb : Nat
  gb : Nat
  bb : Nat
deriving DecidableEq, Repr

/-- `Bc6ModeInfo::new` (`src/decode.rs:543-674`); the catch-all arm is the
all-zero default. -/
def Bc6ModeInfo.new (mode : Nat) : Bc6ModeInfo :=
  match mode with
  | 0 => ⟨2, 1, 5, 10, 5, 5, 5⟩
  | 1 => ⟨2, 1, 5, 7, 6, 6, 6⟩
  | 2 => ⟨2, 1, 5, 11, 5, 4, 4⟩
  | 3 => ⟨2, 1, 5, 11, 4, 5, 4⟩
  | 4 => ⟨2, 1, 5, 11, 4, 4, 5⟩
  | 5 => ⟨2, 1, 5, 9, 5, 5, 5⟩
  | 6 => ⟨2, 1, 5, 8, 6, 5, 5⟩
  | 7 => ⟨2, 1, 5, 8, 5, 6, 5⟩
  | 8 => ⟨2, 1, 5, 8, 5, 5, 6⟩
  | 9 => ⟨2, 0, 5, 6, 6, 6, 6⟩
  | 10 => ⟨1, 0, 0, 10, 10, 10, 10⟩
  | 11 => ⟨1, 1, 0, 11, 9, 9, 9⟩
  | 12 => ⟨1, 1, 0, 12, 8, 8, 8⟩
  | 13 => ⟨1, 1, 0, 16, 4, 4, 4⟩
  | _ => ⟨0, 0, 0, 0, 0, 0, 0⟩

/-- Result of the mode-decoding prologue of `decode_bc6h_block`
(`src/decode.rs:375-389`): the computed mode, the bit offset where endpoint
bits start, the number of endpoint bits, and the per-pixel index width. -/
structure Bc6Prologue where
  mode : Nat
  bit : Nat
  epbits : Nat
  ib : Nat
deriving DecidableEq, Repr

/-- Mode-decoding prologue of `decode_bc6h_block` (`src/decode.rs:375-389`),
factored out: `bit`, `epbits`, `ib` start at `5`, `75`, `3` and are adjusted
by the branch taken on the low 5 bits of byte 0. -/
def bc6hPrologue (b0 : Nat) : Bc6Prologue :=
  let mode := b0 &&& 0x1f
  if mode &&& 3 = 0 ∨ mode &&& 3 = 1 then ⟨mode &&& 3, 2, 75, 3⟩
  else if mode &&& 3 = 2 then ⟨2 + (mode >>> 2), 5, 72, 3⟩
  else ⟨10 + (mode >>> 2), 5, 60, 4⟩

/-- `bc6_sign_extend` (`src/decode.rs:2136`): the `x |= -1 << prec` on
`isize` followed by the `as u16` store is, on the 16-bit value `v`, an OR
with the low 16 bits of `-1 << prec`. -/
def bc6_sign_extend (v prec : Nat) : Nat :=
  if (v >>> (prec - 1)) &&& 1 = 1 then (v ||| (0xffff <<< prec)) &&& 0xffff
  else v

/-- `bc6_unquantize` (`src/decode.rs:2144`).  The input `v` is a `u16`, and
`v as isize` zero-extends, so `x` is never negative and the `x < 0`
negation branch of the signed path is vacuous; all remaining arithmetic is
on non-negative values and is modelled in `Nat`, coerced to `Int` (the
declared result type `isize`). -/
def bc6_unquantize (v prec : Nat) (sign : Bool) : Int :=
  if !sign then
    if 15 ≤ prec then (v : Int)
    else if v = 0 then 0
    else if v = (1 <<< prec) - 1 then 0xffff
    else (((v <<< 15) + 0x4000) >>> (prec - 1) : Nat)
  else
    if 16 ≤ prec then (v : Int)
    else if v ≠ 0 then
      if (1 <<< (prec - 1)) - 1 ≤ v then 0x7fff
      else (((v <<< 15) + 0x4000) >>> (prec - 1) : Nat)
    else 0

/-- Unsigned-only copy of `bc6_unquantize`: exactly the `!sign` branch of
`src/decode.rs:2144-2158`. -/
def bc6_unquantize_unsigned (v prec : Nat) : Int :=
  if 15 ≤ prec then (v : Int)
  else if v = 0 then 0
  else if v = (1 <<< prec) - 1 then 0xffff
  else (((v <<< 15) + 0x4000) >>> (prec - 1) : Nat)

/-- `half_to_float` (`src/decode.rs:514`), modelled at the bit level: the
multiply-by-`0x77800000` trick multiplies by the exact power `2^112`, which
is exact on every half-float input class (normal, subnormal, zero,
infinity/NaN), so the function is the standard IEEE half to single bit
conversion.  Input is the 16-bit pattern, output the 32-bit float pattern. -/
def half_to_float (h : Nat) : Nat :=
  let h := h &&& 0xffff
  let s := (h >>> 15) <<< 31
  let e := (h >>> 10) &&& 31
  let m := h &&& 1023
  if e = 31 then s ||| (255 <<< 23) ||| (m <<< 13)
  else if 0 < e then s ||| ((e + 112) <<< 23) ||| (m <<< 13)
  else if m = 0 then s
  else
    let t := Nat.log2 m
    s ||| ((t + 103) <<< 23) ||| ((m - (1 <<< t)) <<< (23 - t))

/-- `bc6_finalize` (`src/decode.rs:476`): produce the 16-bit half pattern
and convert it; the `as u16` casts are `&&& 0xffff` after `Int.toNat` (the
values are non-negative in every branch that is reached). -/
def bc6_finalize (v : Int) (sign : Bool) : Nat :=
  if sign then
    if v < 0 then half_to_float ((0x8000 ||| ((-v).toNat * 31 / 32)) &&& 0xffff)
    else half_to_float ((v.toNat * 31 / 32) &&& 0xffff)
  else half_to_float ((v.toNat * 31 / 64) &&& 0xffff)

/-- Unsigned-only copy of `bc6_finalize`: the `else` branch of
`src/decode.rs:476-487`. -/
def bc6_finalize_unsigned (v : Int) : Nat :=
  half_to_float ((v.toNat * 31 / 64) &&& 0xffff)

/-- `bc6_lerp` (`src/decode.rs:466`): `>> 6` on `isize` is an arithmetic
shift, `Int.shiftRight`.  The result is the triple of 32-bit float patterns
of one `RGB32f` pixel. -/
def bc6_lerp (e0 e1 : List Int) (s : Nat) (sign : Bool) : Nat × Nat × Nat :=
  let t : Int := 64 - (s : Int)
  let r := Int.shiftRight (e0.getD 0 0 * t + e1.getD 0 0 * (s : Int)) 6
  let g := Int.shiftRight (e0.getD 1 0 * t + e1.getD 1 0 * (s : Int)) 6
  let b := Int.shiftRight (e0.getD 2 0 * t + e1.getD 2 0 * (s : Int)) 6
  (bc6_finalize r sign, bc6_finalize g sign, bc6_finalize b sign)

/-- Unsigned-only copy of `bc6_lerp`. -/
def bc6_lerp_unsigned (e0 e1 : List Int) (s : Nat) : Nat × Nat × Nat :=
  let t : Int := 64 - (s : Int)
  let r := Int.shiftRight (e0.getD 0 0 * t + e1.getD 0 0 * (s : Int)) 6
  let g := Int.shiftRight (e0.getD 1 0 * t + e1.getD 1 0 * (s : Int)) 6
  let b := Int.shiftRight (e0.getD 2 0 * t + e1.getD 2 0 * (s : Int)) 6
  (bc6_finalize_unsigned r, bc6_finalize_unsigned g, bc6_finalize_unsigned b)

/-- One `bc6_sign_extend(&mut endpoints[idx], prec)` call on the endpoint
array. -/
def signExtendAt (ep : List Nat) (idx prec : Nat) : List Nat :=
  ep.set idx (bc6_sign_extend (ep.getD idx 0) prec)

/-- The `while i < numep` loop sign-extending endpoint triples
(`src/decode.rs:422-428` and `436-442`). -/
def extendTriples (ep : List Nat) (i numep rb gb bb : Nat) : List Nat :=
  if i < numep then
    extendTriples (signExtendAt (signExtendAt (signExtendAt ep i rb) (i + 1) gb) (i + 2) bb)
      (i + 3) numep rb gb bb
  else ep
termination_by numep - i
decreasing_by omega

/-- `decode_bc6h_block` (`src/decode.rs:374-464`).  The 16 output pixels are
triples of 32-bit float patterns; an invalid mode (≥ 14) leaves the staging
block at its all-zero default. -/
def decode_bc6h_block (source : List Nat) (sign : Bool) : List (Nat × Nat × Nat) :=
  let pro := bc6hPrologue (source.getD 0 0)
  let mode := pro.mode
  let ib := pro.ib
  if 14 ≤ mode then List.replicate 16 (0, 0, 0)
  else
    let info := Bc6ModeInfo.new mode
    let cw := bc7_get_weights ib
    let numep := if info.ns = 2 then 12 else 6
    let endpoints := (List.range pro.epbits).foldl (fun ep i =>
      let di := (bc6BitPackings.getD mode []).getD i 0
      let dw := di >>> 4
      let di := di &&& 15
      ep.set dw (ep.getD dw 0 ||| (get_bit source (pro.bit + i) <<< di)))
      (List.replicate 12 0)
    let bit := pro.bit + pro.epbits
    let partition := get_bits source bit info.pb
    let bit := bit + info.pb
    let mask := (1 <<< info.epb) - 1
    let endpoints := if sign then
        signExtendAt (signExtendAt (signExtendAt endpoints 0 info.epb) 1 info.epb) 2 info.epb
      else endpoints
    let endpoints := if sign = true ∨ 0 < info.tr then
        extendTriples endpoints 3 numep info.rb info.gb info.bb
      else endpoints
    let endpoints := if 0 < info.tr then
        let ep := (List.range' 3 (numep - 3)).foldl (fun ep i =>
          ep.set i ((ep.getD i 0 + ep.getD 0 0) &&& mask)) endpoints
        if sign then extendTriples ep 3 numep info.rb info.gb info.bb else ep
      else endpoints
    let ueps := (List.range numep).foldl (fun u i =>
      u.set i (bc6_unquantize (endpoints.getD i 0) info.epb sign))
      (List.replicate 12 (0 : Int))
    ((List.range 16).foldl (fun (acc : Nat × List (Nat × Nat × Nat)) i =>
      let s := bc7_get_subset info.ns partition i * 6
      let ib2 := if i = 0 then ib - 1
        else if info.ns = 2 ∧ i = bc7AI0.getD partition 0 then ib - 1
        else ib
      let i0 := get_bits source acc.1 ib2
      (acc.1 + ib2, acc.2 ++ [bc6_lerp (ueps.drop s) (ueps.drop (s + 3)) (cw.getD i0 0) sign]))
      (bit, [])).2

/-- Copy of `decode_bc6h_block` with every `sign` branch pruned: no
sign-extension of endpoint 0, triple extension only when deltas are used, no
re-extension after deltas, unsigned unquantize and unsigned finalize. -/
def decode_bc6h_block_unsigned (source : List Nat) : List (Nat × Nat × Nat) :=
  let pro := bc6hPrologue (source.getD 0 0)
  let mode := pro.mode
  let ib := pro.ib
  if 14 ≤ mode then List.replicate 16 (0, 0, 0)
  else
    let info := Bc6ModeInfo.new mode
    let cw := bc7_get_weights ib
    let numep := if info.ns = 2 then 12 else 6
    let endpoints := (List.range pro.epbits).foldl (fun ep i =>
      let di := (bc6BitPackings.getD mode []).getD i 0
      let dw := di >>> 4
      let di := di &&& 15
      ep.set dw (ep.getD dw 0 ||| (get_bit source (pro.bit + i) <<< di)))
      (List.replicate 12 0)
    let bit := pro.bit + pro.epbits
    let partition := get_bits source bit info.pb
    let bit := bit + info.pb
    let mask := (1 <<< info.epb) - 1
    let endpoints := if 0 < info.tr then
        extendTriples endpoints 3 numep info.rb info.gb info.bb
      else endpoints
    let endpoints := if 0 < info.tr then
        (List.range' 3 (numep - 3)).foldl (fun ep i =>
          ep.set i ((ep.getD i 0 + ep.getD 0 0) &&& mask)) endpoints
      else endpoints
    let ueps := (List.range numep).foldl (fun u i =>
      u.set i (bc6_unquantize_unsigned (endpoints.getD i 0) info.epb))
      (List.replicate 12 (0 : Int))
    ((List.range 16).foldl (fun (acc : Nat × List (Nat × Nat × Nat)) i =>
      let s := bc7_get_subset info.ns partition i * 6
      let ib2 := if i = 0 then ib - 1
        else if info.ns = 2 ∧ i = bc7AI0.getD partition 0 then ib - 1
        else ib
      let i0 := get_bits source acc.1 ib2
      (acc.1 + ib2, acc.2 ++ [bc6_lerp_unsigned (ueps.drop s) (ueps.drop (s + 3)) (cw.getD i0 0)]))
      (bit, [])).2

/-- Little-endian byte view of a 32-bit value. -/
def u32le (x : Nat) : List Nat :=
  [x &&& 0xff, (x >>> 8) &&& 0xff, (x >>> 16) &&& 0xff, (x >>> 24) &&& 0xff]

/-- Byte view of the `[RGB32f; 16]` staging block (12 bytes per pixel,
three little-endian `f32`). -/
def decode_bc6h_bytes (source : List Nat) (sign : Bool) : List Nat :=
  (decode_bc6h_block source sign).flatMap (fun p => u32le p.1 ++ u32le p.2.1 ++ u32le p.2.2)
/-- Decoder state (`BcnDecoderState`, `src/decode.rs:25-46`).  The C-side
`y_step` is an `i8`; `sign` is the BC6H signedness flag; `swizzle` the
2-bits-per-component destination map. -/
structure DState where
  buffer : List Nat
  width : Nat
  height : Nat
  x : Nat
  y : Nat
  ystep : Int
  sign : Bool
  swizzle : Nat
deriving Repr

/-- `dst[dOff..dOff+n].copy_from_slice(&src[sOff..sOff+n])`, one byte at a
time. -/
def copyRange (dst : List Nat) (dOff : Nat) (src : List Nat) (sOff : Nat) : Nat → List Nat
  | 0 => dst
  | n + 1 => copyRange (dst.set dOff (src.getD sOff 0)) (dOff + 1) src (sOff + 1) n

/-- `swizzle_copy` (`src/decode.rs:317-336`), with explicit offsets into the
destination and source instead of Rust sub-slices. -/
def swizzle_copy (swz : Nat) (dst : List Nat) (dOff : Nat) (src : List Nat) (sOff : Nat)
    (bs : Nat) : List Nat :=
  if swz = 0 ∨ swz = 0xe4 then copyRange dst dOff src sOff bs
  else
    let c := bs >>> 2
    let d1 := copyRange dst (dOff + c * (swz &&& 3)) src sOff c
    let d2 := copyRange d1 (dOff + c * ((swz &&& 0x0c) >>> 2)) src (sOff + c) c
    let d3 := copyRange d2 (dOff + c * ((swz &&& 0x30) >>> 4)) src (sOff + 2 * c) c
    copyRange d3 (dOff + c * ((swz &&& 0xc0) >>> 6)) src (sOff + 3 * c) c

/-- The buffer writes of `put_block` (`src/decode.rs:260-300`): the two
nested loops over the 4 rows and 4 columns of the staging block, with the
clipped (`flip`) and unclipped paths.  `esz` is the element size in bytes
(the source's `block_size` argument, `mem::size_of::<T>()`); `col` is the
byte view of the 16-pixel staging block; `ymax` is `st.height`. -/
def put_block_rows (st : DState) (col : List Nat) (esz : Nat) (flip : Bool) : List Nat :=
  (List.range 4).foldl (fun buf j =>
    let y0 := st.y + j
    if flip then
      if st.height ≤ y0 then buf
      else
        let y := if st.ystep < 0 then st.height - y0 - 1 else y0
        let dstPtr := esz * st.width * y
        (List.range 4).foldl (fun buf i =>
          let x := st.x + i
          if st.width ≤ x then buf
          else swizzle_copy st.swizzle buf (dstPtr + esz * x) col (esz * (j * 4 + i)) esz) buf
    else
      let y := if st.ystep < 0 then st.height - y0 - 1 else y0
      let dstPtr := esz * st.width * y + esz * st.x
      let srcPtr := esz * (j * 4)
      (List.range 4).foldl (fun buf k =>
        swizzle_copy st.swizzle buf (dstPtr + esz * k) col (srcPtr + esz * k) esz) buf)
    st.buffer

/-- `put_block` (`src/decode.rs:256-306`): the buffer writes of
`put_block_rows` followed by the cursor update of lines 301-305 (`x += 4`,
wrapping to the next block row at `xmax = state.width`). -/
def put_block (st : DState) (col : List Nat) (esz : Nat) (flip : Bool) : DState :=
  let buf := put_block_rows st col esz flip
  if st.width ≤ st.x + 4 then { st with buffer := buf, x := 0, y := st.y + 4 }
  else { st with buffer := buf, x := st.x + 4 }

/-- The `decode_loop!` macro body (`src/decode.rs:161-205`): as long as at
least one compressed block of `bs` bytes remains, decode it, place it, and
stop as soon as the cursor row reaches the image height.  `decodeFn` is
applied to the current block's `bs` bytes (the source passes the whole
suffix `&source[source_ptr..]`, but every block decoder reads only within
the leading `bs` bytes: the BC1-BC5 decoders read fixed offsets below 16,
and the BC6H bit reader never goes past bit 128).  `y_max` is captured as
`state.height`, which `put_block` never changes. -/
def decodeLoopGo (decodeFn : List Nat → List Nat) (bs esz : Nat) (source : List Nat)
    (flip : Bool) (ptr bytes : Nat) (st : DState) : DState :=
  if bs = 0 then st
  else if bytes < bs then st
  else
    let col := (source.drop ptr).take bs
    let st2 := put_block st (decodeFn col) esz flip
    if st2.height ≤ st2.y then st2
    else decodeLoopGo decodeFn bs esz source flip (ptr + bs) (bytes - bs) st2
termination_by bytes
decreasing_by omega

/-- `decode_bcn` (`src/decode.rs:207-244`): dispatch on the encoding with
the per-variant block size and element size. -/
def decode_bcn (st : DState) (source : List Nat) (encoding : BcnEncoding) (flip : Bool) :
    DState :=
  match encoding with
  | .Bc1 => decodeLoopGo decode_bc1_block 8 4 source flip 0 source.length st
  | .Bc2 => decodeLoopGo decode_bc2_block 16 4 source flip 0 source.length st
  | .Bc3 => decodeLoopGo decode_bc3_block 16 4 source flip 0 source.length st
  | .Bc4 => decodeLoopGo decode_bc4_block 8 1 source flip 0 source.length st
  | .Bc5 => decodeLoopGo decode_bc5_block 16 4 source flip 0 source.length st
  | .Bc6H => decodeLoopGo (fun b => decode_bc6h_bytes b st.sign) 16 12 source flip 0
      source.length st

/-- The swizzle selection of `decode_rust` (`src/decode.rs:135-148`),
including the `LUM`-requires-BC4 check. -/
def swizzleFor (format : BcnDecoderFormat) (encoding : BcnEncoding) : Except Error Nat :=
  match format with
  | .RGBA => .ok 0b11100100
  | .BGRA => .ok 0b11000110
  | .ARGB => .ok 0b10010011
  | .ABGR => .ok 0b00011011
  | .LUM =>
    match encoding with
    | .Bc4 => .ok 0
    | _ => .error .InvalidPixelFormat

/-- `decode_rust` (`src/decode.rs:104-159`): dimension check, destination
sizing, swizzle selection (with the `InvalidPixelFormat` failure), flip-mode
selection, block loop, and the final buffer.  `BcnDecoderState::default()`
leaves `sign = false` and it is never assigned. -/
def decode_rust (source : List Nat) (width height : Nat) (encoding : BcnEncoding)
    (format : BcnDecoderFormat) : Except Error (List Nat) :=
  if width = 0 ∨ height = 0 then .error .InvalidImageSize
  else
    let dstSize := 4 * width * height
    let dstSize := match encoding with
      | .Bc4 => dstSize >>> 2
      | .Bc6H => dstSize <<< 2
      | _ => dstSize
    match swizzleFor format encoding with
    | .error e => .error e
    | .ok swz =>
      let flip := ((width &&& 3) ||| (height &&& 3)) != 0
      let st : DState :=
        { buffer := List.replicate dstSize 0
          width := width
          height := height
          x := 0
          y := 0
          ystep := if flip then -1 else 1
          sign := false
          swizzle := swz }
      .ok (decode_bcn st source encoding flip).buffer

/-- Destination size in the words of the specification: start from
`4·width·height`, divide by 4 for BC4, multiply by 4 for BC6H. -/
def expectedDstSize (encoding : BcnEncoding) (w h : Nat) : Nat :=
  match encoding with
  | .Bc4 => 4 * w * h / 4
  | .Bc6H => 4 * w * h * 4
  | _ => 4 * w * h

/-- Compressed block size in bytes per encoding (`src/decode.rs:207-244`). -/
def blockSize (encoding : BcnEncoding) : Nat :=
  match encoding with
  | .Bc1 => 8
  | .Bc2 => 16
  | .Bc3 => 16
  | .Bc4 => 8
  | .Bc5 => 16
  | .Bc6H => 16

/-- The inner column loop of `put_block`'s clipped path
(`src/decode.rs:270-281`), as the list of destination pixels it writes:
column `x + i` is skipped once it reaches the image width, the rest receive
the pixel `(r, x + i)` where `r` is the (already flipped) destination
row. -/
def rowTargets (w x r : Nat) : List (Nat × Nat) :=
  (List.range 4).flatMap (fun i => if w ≤ x + i then [] else [(r, x + i)])

/-- The destination pixels written by one `put_block` call in partial-block
mode, mirroring the clipped (`flip`) branch of `put_block_rows`
(`src/decode.rs:260-281`) with `y_step < 0` (which `decode_rust` always
sets together with partial-block mode): row `j` is skipped when the
unflipped `y + j` reaches the image height, and only then is the vertical
flip `y ↦ height - y - 1` applied; the buffer write for pixel `(r, c)`
covers bytes `esz·(r·width + c) .. esz·(r·width + c) + esz`. -/
def blockTargets (w h x y : Nat) : List (Nat × Nat) :=
  (List.range 4).flatMap (fun j =>
    if h ≤ y + j then []
    else rowTargets w x (h - (y + j) - 1))

/-- The destination pixels written over a whole partial-block decode,
mirroring the control flow of `decodeLoopGo` (the `decode_loop!` macro,
`src/decode.rs:161-205`) with `blockTargets` in place of the buffer
writes: one block per `bs` source bytes, cursor advancing by 4 columns and
wrapping to the next block row at the image width, stopping when the
cursor row reaches the image height. -/
def decodeTargetsGo (w h bs bytes x y : Nat) : List (Nat × Nat) :=
  if bs = 0 then []
  else if bytes < bs then []
  else if w ≤ x + 4 then
    if h ≤ y + 4 then blockTargets w h x y
    else blockTargets w h x y ++ decodeTargetsGo w h bs (bytes - bs) 0 (y + 4)
  else
    if h ≤ y then blockTargets w h x y
    else blockTargets w h x y ++ decodeTargetsGo w h bs (bytes - bs) (x + 4) y
termination_by bytes

/-- Unsigned-only byte view of a decoded BC6H block. -/
def decode_bc6h_bytes_unsigned (source : List Nat) : List Nat :=
  (decode_bc6h_block_unsigned source).flatMap
    (fun p => u32le p.1 ++ u32le p.2.1 ++ u32le p.2.2)

/-- The BC6H pipeline of `decode_rust` with the unsigned-only block decoder
substituted, used to state that the public entry point always decodes BC6H
with unsigned semantics. -/
def decode_rust_bc6h_unsigned (source : List Nat) (width height : Nat)
    (format : BcnDecoderFormat) : Except Error (List Nat) :=
  if width = 0 ∨ height = 0 then .error .InvalidImageSize
  else
    let dstSize := (4 * width * height) <<< 2
    match swizzleFor format .Bc6H with
    | .error e => .error e
    | .ok swz =>
      let flip := ((width &&& 3) ||| (height &&& 3)) != 0
      let st : DState :=
        { buffer := List.replicate dstSize 0
          width := width
          height := height
          x := 0
          y := 0
          ystep := if flip then -1 else 1
          sign := false
          swizzle := swz }
      .ok (decodeLoopGo decode_bc6h_bytes_unsigned 16 12 source flip 0 source.length st).buffer

/-! ### Generic helper lemmas -/

/-- One byte of the specification's per-4-byte-pixel channel permutation
`P(format)`: for a swizzle byte `s`, output lane `j` of a pixel receives input
component `k` exactly when `(s >> 2k) & 3 = j` (the placement performed by
`swizzle_copy`, `src/decode.rs:322-335`); a lane no component is sent to is 0
(it cannot arise for the swizzle constants of `src/decode.rs:135-148`, whose
four fields are a permutation of 0..3). -/
def selByte (s j : Nat) (f : Nat → Nat) : Nat :=
  if s &&& 3 = j then f 0
  else if (s &&& 0x0c) >>> 2 = j then f 1
  else if (s &&& 0x30) >>> 4 = j then f 2
  else if (s &&& 0xc0) >>> 6 = j then f 3
  else 0

/-- The specification's `P(format)` applied to a whole buffer: every 4-byte
group is permuted pointwise by `selByte`.  This is the claim-side definition
for C6, to be compared with the swizzled output of `decode_rust`. -/
def applyP (s : Nat) (b : List Nat) : List Nat :=
  (List.range b.length).map (fun i => selByte s (i % 4) (fun k => b.getD (4 * (i / 4) + k) 0))

/-- A decoder state re-targeted at format swizzle `s`: same cursor and
dimensions, buffer permuted by `P`.  Used to relate the `RGBA` run of the
block loop to the run with swizzle `s`. -/
def mapState (s : Nat) (st : DState) : DState :=
  { st with buffer := applyP s st.buffer, swizzle := s }

/-- The swizzle byte `decode_rust` selects for each pixel format
(`src/decode.rs:135-148`); the permutation `P(format)` of claim C6 is
`applyP` of this byte. -/
def formatSwizzle (format : BcnDecoderFormat) : Nat :=
  match format with
  | .RGBA => 0b11100100
  | .BGRA => 0b11000110
  | .ARGB => 0b10010011
  | .ABGR => 0b00011011
  | .LUM => 0

theorem testBit_small (m k i : Nat) (h : m < 2 ^ k) (hk : k ≤ i) : m.testBit i = false :=
  Nat.testBit_lt_two_pow (lt_of_lt_of_le h (Nat.pow_le_pow_right (by norm_num) hk))

/-! ### C7: the 565 unpack -/

theorem shr8_and_f800 (x : Nat) : (x &&& 0xf800) >>> 8 = (x >>> 8) &&& 0xF8 := by
  apply Nat.eq_of_testBit_eq
  intro i
  simp only [Nat.testBit_shiftRight, Nat.testBit_and]
  rcases Nat.lt_or_ge i 8 with h | h
  · interval_cases i <;> rfl
  · have h1 := testBit_small 0xf800 16 (8 + i) (by norm_num) (by omega)
    have h2 := testBit_small 0xF8 8 i (by norm_num) (by omega)
    simp [h1, h2]

theorem shr5_of_red (x : Nat) : ((x >>> 8) &&& 0xF8) >>> 5 = (x >>> 13) &&& 0x7 := by
  apply Nat.eq_of_testBit_eq
  intro i
  simp only [Nat.testBit_shiftRight, Nat.testBit_and]
  rcases Nat.lt_or_ge i 3 with h | h
  · interval_cases i <;> rfl
  · have h1 := testBit_small 0xF8 8 (5 + i) (by norm_num) (by omega)
    have h2 := testBit_small 0x7 3 i (by norm_num) (by omega)
    simp [h1, h2]

theorem shr3_and_7e0 (x : Nat) : (x &&& 0x7e0) >>> 3 = (x >>> 3) &&& 0xFC := by
  apply Nat.eq_of_testBit_eq
  intro i
  simp only [Nat.testBit_shiftRight, Nat.testBit_and]
  rcases Nat.lt_or_ge i 8 with h | h
  · interval_cases i <;> rfl
  · have h1 := testBit_small 0x7e0 11 (3 + i) (by norm_num) (by omega)
    have h2 := testBit_small 0xFC 8 i (by norm_num) (by omega)
    simp [h1, h2]

theorem shr6_of_green (x : Nat) : ((x >>> 3) &&& 0xFC) >>> 6 = (x >>> 9) &&& 0x3 := by
  apply Nat.eq_of_testBit_eq
  intro i
  simp only [Nat.testBit_shiftRight, Nat.testBit_and]
  rcases Nat.lt_or_ge i 2 with h | h
  · interval_cases i <;> rfl
  · have h1 := testBit_small 0xFC 8 (6 + i) (by norm_num) (by omega)
    have h2 := testBit_small 0x3 2 i (by norm_num) (by omega)
    simp [h1, h2]

theorem shl3_and_1f (x : Nat) : (x &&& 0x1f) <<< 3 = (x <<< 3) &&& 0xF8 := by
  apply Nat.eq_of_testBit_eq
  intro i
  simp only [Nat.testBit_shiftLeft, Nat.testBit_and]
  rcases Nat.lt_or_ge i 8 with h | h
  · interval_cases i <;> rfl
  · have h1 := testBit_small 0x1f 5 (i - 3) (by norm_num) (by omega)
    have h2 := testBit_small 0xF8 8 i (by norm_num) (by omega)
    simp [h1, h2]

theorem shr5_of_blue (x : Nat) : ((x &&& 0x1f) <<< 3) >>> 5 = (x >>> 2) &&& 0x7 := by
  apply Nat.eq_of_testBit_eq
  intro i
  simp only [Nat.testBit_shiftRight, Nat.testBit_shiftLeft, Nat.testBit_and]
  rcases Nat.lt_or_ge i 3 with h | h
  · interval_cases i <;> rfl
  · have h1 := testBit_small 0x1f 5 (5 + i - 3) (by norm_num) (by omega)
    have h2 := testBit_small 0x7 3 i (by norm_num) (by omega)
    simp [h1, h2]

theorem or_lt_256 {a b : Nat} (ha : a < 256) (hb : b < 256) : a ||| b < 256 :=
  Nat.or_lt_two_pow (n := 8) ha hb

/-- C7: for every 16-bit value `x` the 565 unpack returns
`red = ((x>>8)&0xF8)|((x>>13)&0x7)`, `green = ((x>>3)&0xFC)|((x>>9)&0x3)`,
`blue = ((x<<3)&0xF8)|((x>>2)&0x7)`, `alpha = 0xFF`; in particular it maps
`0x0000`, `0xFFFF`, `0xF800`, `0x07E0`, `0x001F` to black, white, red,
green, blue (all opaque). -/
theorem c7_decode_565 :
    (∀ x : Nat, x < 65536 →
      decode_565 x =
        ⟨((x >>> 8) &&& 0xF8) ||| ((x >>> 13) &&& 0x7),
         ((x >>> 3) &&& 0xFC) ||| ((x >>> 9) &&& 0x3),
         ((x <<< 3) &&& 0xF8) ||| ((x >>> 2) &&& 0x7), 0xFF⟩) ∧
    decode_565 0x0000 = ⟨0, 0, 0, 255⟩ ∧
    decode_565 0xFFFF = ⟨255, 255, 255, 255⟩ ∧
    decode_565 0xF800 = ⟨255, 0, 0, 255⟩ ∧
    decode_565 0x07E0 = ⟨0, 255, 0, 255⟩ ∧
    decode_565 0x001F = ⟨0, 0, 255, 255⟩ := by
  refine ⟨fun x _ => ?_, by decide, by decide, by decide, by decide, by decide⟩
  show decode_565 x = _
  simp only [decode_565]
  rw [shr8_and_f800, shr5_of_red, shr3_and_7e0, shr6_of_green, shr5_of_blue, shl3_and_1f]
  have hr : ((x >>> 8) &&& 0xF8) ||| ((x >>> 13) &&& 0x7) < 256 :=
    or_lt_256 (by have := Nat.and_le_right (n := x >>> 8) (m := 0xF8); omega)
      (by have := Nat.and_le_right (n := x >>> 13) (m := 0x7); omega)
  have hg : ((x >>> 3) &&& 0xFC) ||| ((x >>> 9) &&& 0x3) < 256 :=
    or_lt_256 (by have := Nat.and_le_right (n := x >>> 3) (m := 0xFC); omega)
      (by have := Nat.and_le_right (n := x >>> 9) (m := 0x3); omega)
  have hb : ((x <<< 3) &&& 0xF8) ||| ((x >>> 2) &&& 0x7) < 256 :=
    or_lt_256 (by have := Nat.and_le_right (n := x <<< 3) (m := 0xF8); omega)
      (by have := Nat.and_le_right (n := x >>> 2) (m := 0x7); omega)
  simp [Nat.mod_eq_of_lt hr, Nat.mod_eq_of_lt hg, Nat.mod_eq_of_lt hb]

/-- Witness for C7 at the concrete input `0xF800`. -/
theorem c7_decode_565_witness :
    decode_565 0xF800 =
      ⟨((0xF800 >>> 8) &&& 0xF8) ||| ((0xF800 >>> 13) &&& 0x7),
       ((0xF800 >>> 3) &&& 0xFC) ||| ((0xF800 >>> 9) &&& 0x3),
       ((0xF800 <<< 3) &&& 0xF8) ||| ((0xF800 >>> 2) &&& 0x7), 0xFF⟩ :=
  c7_decode_565.1 0xF800 (by decide)

/-! ### C3: the degenerate BC3 alpha palette -/

/-- C3 counterexample: with `a0 = a1 = 0` the 8-entry alpha palette is not
the constant-0 palette (its entry 7 is 255), refuting "all 8 entries equal
v". -/
theorem c3_counterexample : bc3AlphaPalette 0 0 ≠ List.replicate 8 0 := by decide

/-- C3 (amended): for every byte `v`, the palette with `a0 = a1 = v` has
entries 0-5 equal to `v`, entry 6 equal to 0 and entry 7 equal to 255 (the
`a0 ≤ a1` branch applies, whose interpolated entries all collapse to `v`). -/
theorem c3_palette_degenerate (v : Nat) (h : v < 256) :
    bc3AlphaPalette v v = [v, v, v, v, v, v, 0, 0xff] := by
  simp [bc3AlphaPalette, Nat.mod_eq_of_lt h]
  omega

/-- Witness for the amended C3 at `v = 7`. -/
theorem c3_palette_degenerate_witness : bc3AlphaPalette 7 7 = [7, 7, 7, 7, 7, 7, 0, 0xff] :=
  c3_palette_degenerate 7 (by decide)
/-! ### C8: the BC1 color block -/

theorem decode_565_r_lt (x : Nat) : (decode_565 x).r < 256 := Nat.mod_lt _ (by norm_num)

theorem decode_565_g_lt (x : Nat) : (decode_565 x).g < 256 := Nat.mod_lt _ (by norm_num)

theorem decode_565_b_lt (x : Nat) : (decode_565 x).b < 256 := Nat.mod_lt _ (by norm_num)

/-- C8: the BC1 palette has `p[0]`, `p[1]` the 565 unpacks of `c0`, `c1`;
for `c0 > c1` the 2:1 blends (truncating division, opaque), otherwise the
1:1 blend and transparent black; and pixel `n` of the block is `p[index]`
with `index` the 2 LUT bits starting at bit `2n`. -/
theorem c8_bc1_color (c0 c1 : Nat) (src : List Nat) :
    (bc1Palette c0 c1).getD 0 default = decode_565 c0 ∧
    (bc1Palette c0 c1).getD 1 default = decode_565 c1 ∧
    (c1 < c0 →
      (bc1Palette c0 c1).getD 2 default =
        ⟨(2 * (decode_565 c0).r + (decode_565 c1).r) / 3,
         (2 * (decode_565 c0).g + (decode_565 c1).g) / 3,
         (2 * (decode_565 c0).b + (decode_565 c1).b) / 3, 0xff⟩ ∧
      (bc1Palette c0 c1).getD 3 default =
        ⟨((decode_565 c0).r + 2 * (decode_565 c1).r) / 3,
         ((decode_565 c0).g + 2 * (decode_565 c1).g) / 3,
         ((decode_565 c0).b + 2 * (decode_565 c1).b) / 3, 0xff⟩) ∧
    (¬ c1 < c0 →
      (bc1Palette c0 c1).getD 2 default =
        ⟨((decode_565 c0).r + (decode_565 c1).r) / 2,
         ((decode_565 c0).g + (decode_565 c1).g) / 2,
         ((decode_565 c0).b + (decode_565 c1).b) / 2, 0xff⟩ ∧
      (bc1Palette c0 c1).getD 3 default = ⟨0, 0, 0, 0⟩) ∧
    (∀ n, n < 16 →
      (decode_bc1_color src).getD n default =
        (bc1Palette (load_16 src 0) (load_16 src 2)).getD
          ((load_32 src 4 >>> (2 * n)) &&& 3) default) := by
  have hr0 := decode_565_r_lt c0
  have hg0 := decode_565_g_lt c0
  have hb0 := decode_565_b_lt c0
  have hr1 := decode_565_r_lt c1
  have hg1 := decode_565_g_lt c1
  have hb1 := decode_565_b_lt c1
  refine ⟨?_, ?_, fun hlt => ?_, fun hge => ?_, fun n hn => ?_⟩
  · simp [bc1Palette]
    split <;> rfl
  · simp [bc1Palette]
    split <;> rfl
  · constructor
    · simp only [bc1Palette, if_pos hlt]
      simp only [List.getD, List.getElem?_cons_succ, List.getElem?_cons_zero,
        Option.getD_some]
      simp [Rgba.mk.injEq]
      omega
    · simp only [bc1Palette, if_pos hlt]
      simp only [List.getD, List.getElem?_cons_succ, List.getElem?_cons_zero,
        Option.getD_some]
      simp [Rgba.mk.injEq]
      omega
  · constructor
    · simp only [bc1Palette, if_neg hge]
      simp only [List.getD, List.getElem?_cons_succ, List.getElem?_cons_zero,
        Option.getD_some]
      simp [Rgba.mk.injEq]
      omega
    · simp only [bc1Palette, if_neg hge]
      rfl
  · simp only [decode_bc1_color]
    rw [List.getD_eq_getElem?_getD, List.getElem?_map, List.getElem?_range hn]
    simp [Nat.and_comm]

/-- Witness for C8 at a block with `c0 = 0xF800 > c1 = 0` (bytes
`[0x00, 0xF8, 0x00, 0x00, ...]`). -/
theorem c8_bc1_color_witness :
    (bc1Palette 0xF800 0).getD 2 default =
      ⟨(2 * (decode_565 0xF800).r + (decode_565 0).r) / 3,
       (2 * (decode_565 0xF800).g + (decode_565 0).g) / 3,
       (2 * (decode_565 0xF800).b + (decode_565 0).b) / 3, 0xff⟩ ∧
    (decode_bc1_color [0x00, 0xF8, 0, 0, 0, 0, 0, 0]).getD 5 default =
      (bc1Palette (load_16 [0x00, 0xF8, 0, 0, 0, 0, 0, 0] 0)
        (load_16 [0x00, 0xF8, 0, 0, 0, 0, 0, 0] 2)).getD
        ((load_32 [0x00, 0xF8, 0, 0, 0, 0, 0, 0] 4 >>> (2 * 5)) &&& 3) default :=
  ⟨((c8_bc1_color 0xF800 0 []).2.2.1 (by decide)).1,
    (c8_bc1_color 0 0 [0x00, 0xF8, 0, 0, 0, 0, 0, 0]).2.2.2.2 5 (by decide)⟩
/-! ### C4: BC6H mode decoding -/

/-- C4 counterexample: byte 0 = 26 (`0b11010`) has low 2 bits `10`, and the
computed mode is `2 + 6 = 8`, outside the claimed range 2..5 (it is a valid
mode that is fully decoded). -/
theorem c4_mode_counterexample :
    26 &&& 3 = 2 ∧ (bc6hPrologue 26).mode = 8 ∧ ¬ (bc6hPrologue 26).mode ≤ 5 := by decide

set_option maxRecDepth 8192 in
/-- C4 (amended): the mode is decoded from the low 5 bits of byte 0: low 2
bits `00`/`01` give mode 0/1 with endpoint bits starting at bit 2; low 2
bits `10` give mode `2 + bits[4:2]`, i.e. modes 2..9, with 72 endpoint bits
starting at bit 5; otherwise mode `10 + bits[4:2]`, i.e. modes 10..17, with
60 endpoint bits, 4 index bits and start bit 5; and every block whose
computed mode is ≥ 14 decodes to the all-zero 16-pixel block (no error
path exists). -/
theorem c4_bc6h_mode :
    (∀ b0, b0 < 256 →
      ((b0 &&& 3 = 0 ∨ b0 &&& 3 = 1) →
        (bc6hPrologue b0).mode = b0 &&& 3 ∧ (bc6hPrologue b0).bit = 2) ∧
      (b0 &&& 3 = 2 →
        (bc6hPrologue b0).mode = 2 + ((b0 &&& 0x1f) >>> 2) ∧
        2 ≤ (bc6hPrologue b0).mode ∧ (bc6hPrologue b0).mode ≤ 9 ∧
        (bc6hPrologue b0).epbits = 72 ∧ (bc6hPrologue b0).bit = 5) ∧
      (b0 &&& 3 = 3 →
        (bc6hPrologue b0).mode = 10 + ((b0 &&& 0x1f) >>> 2) ∧
        10 ≤ (bc6hPrologue b0).mode ∧ (bc6hPrologue b0).mode ≤ 17 ∧
        (bc6hPrologue b0).epbits = 60 ∧ (bc6hPrologue b0).ib = 4 ∧
        (bc6hPrologue b0).bit = 5)) ∧
    (∀ src : List Nat, ∀ sign : Bool,
      14 ≤ (bc6hPrologue (src.getD 0 0)).mode →
      decode_bc6h_block src sign = List.replicate 16 (0, 0, 0)) := by
  constructor
  · decide
  · intro src sign h
    simp only [decode_bc6h_block]
    rw [if_pos h]

/-- Witness for C4: byte 0 = 19 (`0b10011`) computes mode `10 + 4 = 14`,
and the block decodes to 16 zero pixels. -/
theorem c4_bc6h_mode_witness :
    ((19 &&& 3 = 0 ∨ 19 &&& 3 = 1) →
      (bc6hPrologue 19).mode = 19 &&& 3 ∧ (bc6hPrologue 19).bit = 2) ∧
    decode_bc6h_block [19] false = List.replicate 16 (0, 0, 0) :=
  ⟨(c4_bc6h_mode.1 19 (by decide)).1,
    c4_bc6h_mode.2 [19] false (by decide)⟩
/-! ### C2: the error cases of `decode_rust` -/

/-- C2: `decode_rust` fails with `InvalidImageSize` exactly when a dimension
is zero (checked first); with positive dimensions it fails with
`InvalidPixelFormat` exactly when the format is `LUM` and the encoding is
not BC4; in every other case it returns a buffer. -/
theorem c2_error_cases (src : List Nat) (w h : Nat) (enc : BcnEncoding)
    (fmt : BcnDecoderFormat) :
    ((decode_rust src w h enc fmt = .error .InvalidImageSize) ↔ (w = 0 ∨ h = 0)) ∧
    (0 < w → 0 < h →
      ((decode_rust src w h enc fmt = .error .InvalidPixelFormat) ↔
        (fmt = .LUM ∧ enc ≠ .Bc4))) ∧
    (0 < w → 0 < h → ¬(fmt = .LUM ∧ enc ≠ .Bc4) →
      ∃ buf, decode_rust src w h enc fmt = .ok buf) := by
  by_cases hwh : w = 0 ∨ h = 0
  · refine ⟨?_, ?_, ?_⟩
    · simp [decode_rust, hwh]
    · intro hw hh
      omega
    · intro hw hh
      omega
  · unfold decode_rust
    rw [if_neg hwh]
    cases fmt <;> cases enc <;>
      simp [swizzleFor] <;> omega

/-- Witness for C2: a zero width yields `InvalidImageSize`; with positive
dimensions, `LUM` with BC1 yields `InvalidPixelFormat`; `LUM` with BC4
succeeds. -/
theorem c2_error_cases_witness :
    decode_rust [] 0 3 .Bc1 .RGBA = .error .InvalidImageSize ∧
    decode_rust [] 3 3 .Bc1 .LUM = .error .InvalidPixelFormat ∧
    ∃ buf, decode_rust [] 3 3 .Bc4 .LUM = .ok buf :=
  ⟨(c2_error_cases [] 0 3 .Bc1 .RGBA).1.mpr (Or.inl rfl),
    ((c2_error_cases [] 3 3 .Bc1 .LUM).2.1 (by decide) (by decide)).mpr
      ⟨rfl, by decide⟩,
    (c2_error_cases [] 3 3 .Bc4 .LUM).2.2 (by decide) (by decide)
      (by simp)⟩
/-! ### Buffer length preservation and C1 -/

theorem length_copyRange (n : Nat) :
    ∀ (dst src : List Nat) (dOff sOff : Nat),
      (copyRange dst dOff src sOff n).length = dst.length := by
  induction n with
  | zero => intro dst src dOff sOff; rfl
  | succ n ih =>
    intro dst src dOff sOff
    show (copyRange (dst.set dOff (src.getD sOff 0)) (dOff + 1) src (sOff + 1) n).length = _
    rw [ih, List.length_set]

theorem length_swizzle_copy (swz : Nat) (dst : List Nat) (dOff : Nat) (src : List Nat)
    (sOff bs : Nat) : (swizzle_copy swz dst dOff src sOff bs).length = dst.length := by
  unfold swizzle_copy
  split
  · exact length_copyRange ..
  · simp only [length_copyRange]

theorem foldl_length {α : Type} (l : List α) (f : List Nat → α → List Nat)
    (hf : ∀ b x, (f b x).length = b.length) :
    ∀ b, (l.foldl f b).length = b.length := by
  induction l with
  | nil => intro b; rfl
  | cons x xs ih => intro b; rw [List.foldl_cons, ih, hf]

theorem put_block_rows_length (st : DState) (col : List Nat) (esz : Nat) (flip : Bool) :
    (put_block_rows st col esz flip).length = st.buffer.length := by
  unfold put_block_rows
  refine foldl_length _ _ (fun buf j => ?_) st.buffer
  cases flip
  · simp only [Bool.false_eq_true, if_false]
    exact foldl_length _ _ (fun b k => length_swizzle_copy ..) buf
  · simp only [eq_self_iff_true, if_true]
    split
    · rfl
    · refine foldl_length _ _ (fun b i => ?_) buf
      split
      · rfl
      · exact length_swizzle_copy ..

theorem put_block_buffer (st : DState) (col : List Nat) (esz : Nat) (flip : Bool) :
    (put_block st col esz flip).buffer = put_block_rows st col esz flip := by
  unfold put_block
  split <;> rfl

theorem put_block_width (st : DState) (col : List Nat) (esz : Nat) (flip : Bool) :
    (put_block st col esz flip).width = st.width := by
  unfold put_block
  split <;> rfl

theorem put_block_height (st : DState) (col : List Nat) (esz : Nat) (flip : Bool) :
    (put_block st col esz flip).height = st.height := by
  unfold put_block
  split <;> rfl

theorem put_block_x (st : DState) (col : List Nat) (esz : Nat) (flip : Bool) :
    (put_block st col esz flip).x = if st.width ≤ st.x + 4 then 0 else st.x + 4 := by
  unfold put_block
  split <;> simp_all

theorem put_block_y (st : DState) (col : List Nat) (esz : Nat) (flip : Bool) :
    (put_block st col esz flip).y = if st.width ≤ st.x + 4 then st.y + 4 else st.y := by
  unfold put_block
  split <;> simp_all

theorem put_block_buffer_length (st : DState) (col : List Nat) (esz : Nat) (flip : Bool) :
    (put_block st col esz flip).buffer.length = st.buffer.length := by
  rw [put_block_buffer, put_block_rows_length]

/-- Unfolding equation for `decodeLoopGo` with the `let` bindings expanded,
convenient for case splitting. -/
theorem decodeLoopGo_eq (f : List Nat → List Nat) (bs esz : Nat) (source : List Nat)
    (flip : Bool) (ptr bytes : Nat) (st : DState) :
    decodeLoopGo f bs esz source flip ptr bytes st =
      if bs = 0 then st
      else if bytes < bs then st
      else
        if (put_block st (f ((source.drop ptr).take bs)) esz flip).height ≤
            (put_block st (f ((source.drop ptr).take bs)) esz flip).y then
          put_block st (f ((source.drop ptr).take bs)) esz flip
        else
          decodeLoopGo f bs esz source flip (ptr + bs) (bytes - bs)
            (put_block st (f ((source.drop ptr).take bs)) esz flip) := by
  rw [decodeLoopGo]

theorem decodeLoopGo_buffer_length (f : List Nat → List Nat) (bs esz : Nat)
    (src : List Nat) (flip : Bool) :
    ∀ bytes ptr st,
      (decodeLoopGo f bs esz src flip ptr bytes st).buffer.length = st.buffer.length := by
  intro bytes
  induction bytes using Nat.strong_induction_on with
  | _ bytes ih =>
    intro ptr st
    rw [decodeLoopGo_eq]
    split
    · rfl
    · split
      · rfl
      · split
        · exact put_block_buffer_length ..
        · next hbs hlt _ =>
          rw [ih (bytes - bs) (by omega)]
          exact put_block_buffer_length ..

/-- C1: for positive dimensions, any encoding and any format accepted for
it, `decode_rust` returns `Ok` with a buffer of length `4·w·h`, divided by
4 for BC4 and multiplied by 4 for BC6H. -/
theorem c1_output_length (src : List Nat) (w h : Nat) (enc : BcnEncoding)
    (fmt : BcnDecoderFormat) (hw : 0 < w) (hh : 0 < h) (hf : fmt = .LUM → enc = .Bc4) :
    ∃ buf, decode_rust src w h enc fmt = .ok buf ∧ buf.length = expectedDstSize enc w h := by
  rcases hsw : swizzleFor fmt enc with e | swz
  · exfalso
    cases fmt <;> cases enc <;> simp_all [swizzleFor]
  · unfold decode_rust
    rw [if_neg (by omega), hsw]
    refine ⟨_, rfl, ?_⟩
    cases enc <;>
      simp [decode_bcn, decodeLoopGo_buffer_length, expectedDstSize,
        Nat.shiftRight_eq_div_pow, Nat.shiftLeft_eq]

/-- Witness for C1 at a 4×4 BC1 decode of the empty source. -/
theorem c1_output_length_witness :
    ∃ buf, decode_rust [] 4 4 .Bc1 .RGBA = .ok buf ∧
      buf.length = expectedDstSize .Bc1 4 4 :=
  c1_output_length [] 4 4 .Bc1 .RGBA (by decide) (by decide) (by simp)
/-! ### C10: the BC6H sign flag is always false -/

theorem bc6_unquantize_false (v prec : Nat) :
    bc6_unquantize v prec false = bc6_unquantize_unsigned v prec := rfl

theorem bc6_finalize_false (v : Int) : bc6_finalize v false = bc6_finalize_unsigned v := rfl

theorem bc6_lerp_false (e0 e1 : List Int) (s : Nat) :
    bc6_lerp e0 e1 s false = bc6_lerp_unsigned e0 e1 s := rfl

theorem decode_bc6h_block_false (src : List Nat) :
    decode_bc6h_block src false = decode_bc6h_block_unsigned src := by
  unfold decode_bc6h_block decode_bc6h_block_unsigned
  simp only [bc6_unquantize_false, bc6_lerp_false, Bool.false_eq_true, false_or, if_false]

/-- C10: the decoder state's `sign` field is the `false` default and is the
value passed to every BC6H block decode, so `decode_bc6h_block` behaves as
its sign-pruned copy, and the public entry point on BC6H equals the
unsigned-only pipeline for every input. -/
theorem c10_bc6h_unsigned :
    (∀ src : List Nat, decode_bc6h_block src false = decode_bc6h_block_unsigned src) ∧
    (∀ (src : List Nat) (w h : Nat) (fmt : BcnDecoderFormat),
      decode_rust src w h .Bc6H fmt = decode_rust_bc6h_unsigned src w h fmt) := by
  refine ⟨decode_bc6h_block_false, fun src w h fmt => ?_⟩
  have hfn : (fun b => decode_bc6h_bytes b false) = decode_bc6h_bytes_unsigned := by
    funext b
    unfold decode_bc6h_bytes decode_bc6h_bytes_unsigned
    rw [decode_bc6h_block_false]
  by_cases hwh : w = 0 ∨ h = 0
  · simp [decode_rust, decode_rust_bc6h_unsigned, hwh]
  · unfold decode_rust decode_rust_bc6h_unsigned
    rw [if_neg hwh, if_neg hwh]
    cases hsw : swizzleFor fmt .Bc6H with
    | error e => rfl
    | ok swz =>
      simp only [decode_bcn]
      rw [hfn]

/-! ### C5: partial-block clipping and write coverage -/

theorem count_cell (w x i r pr pc : Nat) (hpc : pc < w) :
    ((if w ≤ x + i then [] else [(r, x + i)]) : List (Nat × Nat)).count (pr, pc) =
      if r = pr ∧ pc = x + i then 1 else 0 := by
  split_ifs with h1 h2 <;> simp_all [List.count_singleton, Prod.mk.injEq] <;> omega

theorem count_row (w x r pr pc : Nat) (hpc : pc < w) :
    (rowTargets w x r).count (pr, pc) = if r = pr ∧ x ≤ pc ∧ pc < x + 4 then 1 else 0 := by
  have hr4 : List.range 4 = [0, 1, 2, 3] := rfl
  unfold rowTargets
  rw [hr4]
  simp only [List.flatMap_cons, List.flatMap_nil, List.append_nil, List.count_append]
  rw [count_cell w x 0 r pr pc hpc, count_cell w x 1 r pr pc hpc,
    count_cell w x 2 r pr pc hpc, count_cell w x 3 r pr pc hpc]
  split_ifs <;> omega

theorem count_blockTargets (w h x y pr pc : Nat) (hpr : pr < h) (hpc : pc < w) :
    (blockTargets w h x y).count (pr, pc) =
      if y ≤ h - 1 - pr ∧ h - 1 - pr < y + 4 ∧ x ≤ pc ∧ pc < x + 4 then 1 else 0 := by
  have hr4 : List.range 4 = [0, 1, 2, 3] := rfl
  unfold blockTargets
  rw [hr4]
  simp only [List.flatMap_cons, List.flatMap_nil, List.append_nil, List.count_append]
  have hrow : ∀ j : Nat,
      ((if h ≤ y + j then ([] : List (Nat × Nat))
        else rowTargets w x (h - (y + j) - 1)).count (pr, pc)) =
        if y + j < h ∧ h - (y + j) - 1 = pr ∧ x ≤ pc ∧ pc < x + 4 then 1 else 0 := by
    intro j
    split_ifs with h1 h2
    · omega
    · simp only [List.count_nil]
    · rw [count_row w x _ pr pc hpc]
      split_ifs <;> omega
    · rw [count_row w x _ pr pc hpc]
      split_ifs <;> omega
  rw [hrow 0, hrow 1, hrow 2, hrow 3]
  split_ifs <;> omega


theorem count_decodeTargetsGo (w h bs : Nat) (hw : 0 < w) (hh : 0 < h) (hbs : 0 < bs) :
    ∀ n a b bytes, a < (w + 3) / 4 → b < (h + 3) / 4 →
      n = ((w + 3) / 4 - a) + (w + 3) / 4 * ((h + 3) / 4 - 1 - b) →
      n * bs ≤ bytes →
      ∀ pr pc, pr < h → pc < w →
        (decodeTargetsGo w h bs bytes (4 * a) (4 * b)).count (pr, pc) =
          if b < (h - 1 - pr) / 4 ∨ ((h - 1 - pr) / 4 = b ∧ a ≤ pc / 4) then 1 else 0 := by
  intro n
  induction n with
  | zero => intro a b bytes ha hb hn; omega
  | succ n ih =>
    intro a b bytes ha hb hn hbytes pr pc hpr hpc
    have hsm : (n + 1) * bs = n * bs + bs := Nat.succ_mul n bs
    rw [decodeTargetsGo, if_neg (by omega), if_neg (by omega)]
    by_cases hxw : w ≤ 4 * a + 4
    · rw [if_pos hxw]
      by_cases hy4 : h ≤ 4 * b + 4
      · rw [if_pos hy4]
        rw [count_blockTargets w h _ _ pr pc hpr hpc]
        split_ifs <;> omega
      · rw [if_neg hy4]
        rw [List.count_append, count_blockTargets w h _ _ pr pc hpr hpc]
        have hb1 : 4 * b + 4 = 4 * (b + 1) := by ring
        have hz : (0 : Nat) = 4 * 0 := rfl
        rw [hb1, hz]
        have hmul : (w + 3) / 4 * ((h + 3) / 4 - 1 - b) =
            (w + 3) / 4 + (w + 3) / 4 * ((h + 3) / 4 - 1 - (b + 1)) := by
          have hr1 : (h + 3) / 4 - 1 - b = ((h + 3) / 4 - 1 - (b + 1)) + 1 := by omega
          rw [hr1, Nat.mul_add, Nat.mul_one, Nat.add_comm]
        rw [ih 0 (b + 1) (bytes - bs) (by omega) (by omega) (by omega) (by omega)
          pr pc hpr hpc]
        split_ifs <;> omega
    · rw [if_neg hxw, if_neg (by omega)]
      rw [List.count_append, count_blockTargets w h _ _ pr pc hpr hpc]
      have ha1 : 4 * a + 4 = 4 * (a + 1) := by ring
      rw [ha1, ih (a + 1) b (bytes - bs) (by omega) hb (by omega) (by omega) pr pc hpr hpc]
      split_ifs <;> omega


theorem mem_blockTargets (w h x y : Nat) (p : Nat × Nat) (hp : p ∈ blockTargets w h x y) :
    p.1 < h ∧ p.2 < w := by
  unfold blockTargets at hp
  simp only [List.mem_flatMap, List.mem_range] at hp
  obtain ⟨j, _, hp⟩ := hp
  split at hp
  · simp at hp
  · next hyj =>
    unfold rowTargets at hp
    simp only [List.mem_flatMap, List.mem_range] at hp
    obtain ⟨i, _, hp⟩ := hp
    split at hp
    · simp at hp
    · next hxi =>
      simp only [List.mem_singleton] at hp
      subst hp
      constructor
      · simp only []
        omega
      · simp only []
        omega

theorem mem_decodeTargetsGo (w h bs : Nat) :
    ∀ bytes x y p, p ∈ decodeTargetsGo w h bs bytes x y → p.1 < h ∧ p.2 < w := by
  intro bytes
  induction bytes using Nat.strong_induction_on with
  | _ bytes ih =>
    intro x y p hp
    rw [decodeTargetsGo] at hp
    split at hp
    · simp at hp
    · split at hp
      · simp at hp
      · next hbs hbytes =>
        split at hp
        · split at hp
          · exact mem_blockTargets w h x y p hp
          · rcases List.mem_append.mp hp with hp | hp
            · exact mem_blockTargets w h x y p hp
            · exact ih (bytes - bs) (by omega) 0 (y + 4) p hp
        · split at hp
          · exact mem_blockTargets w h x y p hp
          · rcases List.mem_append.mp hp with hp | hp
            · exact mem_blockTargets w h x y p hp
            · exact ih (bytes - bs) (by omega) (x + 4) y p hp

/-- C5: in partial-block mode, each block's pixels are clipped against the
unflipped coordinates before the vertical flip (this is how `blockTargets`
mirrors `put_block`); consequently, over a whole decode with enough source
bytes, every in-bounds pixel `(pr, pc)` is written exactly once, and every
write stays inside the destination region of its pixel grid for any element
size. -/
theorem c5_clipped_writes (w h bs bytes : Nat) (hw : 0 < w) (hh : 0 < h)
    (hm : ¬(w % 4 = 0 ∧ h % 4 = 0)) (hbs : 0 < bs)
    (hbytes : ((w + 3) / 4 * ((h + 3) / 4)) * bs ≤ bytes) :
    (∀ pr pc, pr < h → pc < w → (decodeTargetsGo w h bs bytes 0 0).count (pr, pc) = 1) ∧
    (∀ p ∈ decodeTargetsGo w h bs bytes 0 0,
      p.1 < h ∧ p.2 < w ∧ ∀ esz : Nat, esz * (p.1 * w + p.2) + esz ≤ esz * (w * h)) := by
  constructor
  · intro pr pc hpr hpc
    have heq : (w + 3) / 4 * ((h + 3) / 4) =
        ((w + 3) / 4 - 0) + (w + 3) / 4 * ((h + 3) / 4 - 1 - 0) := by
      have hr1 : (h + 3) / 4 = ((h + 3) / 4 - 1) + 1 := by omega
      rw [Nat.sub_zero, Nat.sub_zero]
      conv_lhs => rw [hr1]
      rw [Nat.mul_add, Nat.mul_one, Nat.add_comm]
    rw [show (0 : Nat) = 4 * 0 from rfl]
    rw [count_decodeTargetsGo w h bs hw hh hbs ((w + 3) / 4 * ((h + 3) / 4)) 0 0 bytes
      (by omega) (by omega) heq hbytes pr pc hpr hpc]
    rw [if_pos (by omega)]
  · intro p hp
    obtain ⟨h1, h2⟩ := mem_decodeTargetsGo w h bs bytes 0 0 p hp
    refine ⟨h1, h2, fun esz => ?_⟩
    have hx : p.1 * w + p.2 + 1 ≤ w * h := by
      have hle : (p.1 + 1) * w ≤ h * w := Nat.mul_le_mul_right w (by omega)
      have hpw : p.1 * w + w = (p.1 + 1) * w := by ring
      have hc : h * w = w * h := Nat.mul_comm h w
      omega
    calc esz * (p.1 * w + p.2) + esz = esz * (p.1 * w + p.2 + 1) := by ring
      _ ≤ esz * (w * h) := Nat.mul_le_mul_left esz hx

/-- Witness for C5 at a 1×1 image decoded from one 8-byte block. -/
theorem c5_clipped_writes_witness : (decodeTargetsGo 1 1 8 8 0 0).count (0, 0) = 1 :=
  (c5_clipped_writes 1 1 8 8 (by decide) (by decide) (by decide) (by decide)
    (by decide)).1 0 0 (by decide) (by decide)

/-! ### C9: no `ImageDecodingError`, short sources, and consumed bytes -/

/-- Two sources that agree on the bytes of one block yield the same block
slice. -/
theorem take_drop_congr (src1 src2 : List Nat) (ptr bs : Nat)
    (h1 : ptr + bs ≤ src1.length) (h2 : ptr + bs ≤ src2.length)
    (hag : ∀ k, k < bs → src1.getD (ptr + k) 0 = src2.getD (ptr + k) 0) :
    (src1.drop ptr).take bs = (src2.drop ptr).take bs := by
  apply List.ext_getElem
  · simp only [List.length_take, List.length_drop]
    omega
  · intro i hi1 hi2
    simp only [List.length_take, List.length_drop] at hi1 hi2
    have hk := hag i (by omega)
    rw [List.getD_eq_getElem src1 0 (by omega), List.getD_eq_getElem src2 0 (by omega)] at hk
    rw [List.getElem_take, List.getElem_drop, List.getElem_take, List.getElem_drop]
    exact hk

/-- The block loop only depends on the source bytes it consumes: from a
block-aligned cursor with `m` blocks still to be processed on both sides
(`m` at most the remaining block count `n` of the image, with both byte
counts stopping the loop after exactly `m` blocks), two sources that agree
on those `m · bs` bytes produce identical final states. -/
theorem decodeLoopGo_congr (f : List Nat → List Nat) (bs esz : Nat) (flip : Bool)
    (w h : Nat) (hw : 0 < w) (hh : 0 < h) (hbs : 0 < bs) :
    ∀ m n a b ptr (src1 src2 : List Nat) (bytes1 bytes2 : Nat) (st : DState),
      st.width = w → st.height = h → st.x = 4 * a → st.y = 4 * b →
      a < (w + 3) / 4 → b < (h + 3) / 4 →
      n = ((w + 3) / 4 - a) + (w + 3) / 4 * ((h + 3) / 4 - 1 - b) →
      m ≤ n →
      m * bs ≤ bytes1 → m * bs ≤ bytes2 →
      (m < n → bytes1 < (m + 1) * bs ∧ bytes2 < (m + 1) * bs) →
      ptr + m * bs ≤ src1.length → ptr + m * bs ≤ src2.length →
      (∀ k, k < m * bs → src1.getD (ptr + k) 0 = src2.getD (ptr + k) 0) →
      decodeLoopGo f bs esz src1 flip ptr bytes1 st =
        decodeLoopGo f bs esz src2 flip ptr bytes2 st := by
  intro m
  induction m with
  | zero =>
    intro n a b ptr src1 src2 bytes1 bytes2 st hsw hsh hsx hsy ha hb hn hmn h1 h2 hstop hl1 hl2 hag
    have hlt : 0 < n := by omega
    obtain ⟨hb1, hb2⟩ := hstop hlt
    rw [decodeLoopGo_eq f bs esz src1 flip ptr bytes1 st,
      decodeLoopGo_eq f bs esz src2 flip ptr bytes2 st]
    rw [if_neg (show ¬ bs = 0 by omega), if_pos (show bytes1 < bs by omega),
      if_neg (show ¬ bs = 0 by omega), if_pos (show bytes2 < bs by omega)]
  | succ m ih =>
    intro n a b ptr src1 src2 bytes1 bytes2 st hsw hsh hsx hsy ha hb hn hmn h1 h2 hstop hl1 hl2 hag
    have hsm : (m + 1) * bs = m * bs + bs := Nat.succ_mul m bs
    have hsm2 : (m + 1 + 1) * bs = (m + 1) * bs + bs := Nat.succ_mul (m + 1) bs
    rw [decodeLoopGo_eq f bs esz src1 flip ptr bytes1 st,
      decodeLoopGo_eq f bs esz src2 flip ptr bytes2 st]
    rw [if_neg (show ¬ bs = 0 by omega), if_neg (show ¬ bytes1 < bs by omega),
      if_neg (show ¬ bs = 0 by omega), if_neg (show ¬ bytes2 < bs by omega)]
    have hslice : (src1.drop ptr).take bs = (src2.drop ptr).take bs :=
      take_drop_congr src1 src2 ptr bs (by omega) (by omega)
        (fun k hk => hag k (by omega))
    rw [hslice]
    set st2 := put_block st (f ((src2.drop ptr).take bs)) esz flip with hst2
    have h2h : st2.height = h := by rw [hst2, put_block_height, hsh]
    have h2w : st2.width = w := by rw [hst2, put_block_width, hsw]
    have h2x : st2.x = if w ≤ 4 * a + 4 then 0 else 4 * a + 4 := by
      rw [hst2, put_block_x, hsx, hsw]
    have h2y : st2.y = if w ≤ 4 * a + 4 then 4 * b + 4 else 4 * b := by
      rw [hst2, put_block_y, hsx, hsy, hsw]
    by_cases hxw : w ≤ 4 * a + 4
    · rw [if_pos hxw] at h2x h2y
      by_cases hyh : st2.height ≤ st2.y
      · simp only [if_pos hyh]
      · simp only [if_neg hyh]
        have hbrow : b + 1 < (h + 3) / 4 := by
          rw [h2h, h2y] at hyh
          omega
        have haeq : (w + 3) / 4 = a + 1 := by omega
        have hmul : (w + 3) / 4 * ((h + 3) / 4 - 1 - b) =
            (w + 3) / 4 + (w + 3) / 4 * ((h + 3) / 4 - 1 - (b + 1)) := by
          have hr1 : (h + 3) / 4 - 1 - b = ((h + 3) / 4 - 1 - (b + 1)) + 1 := by omega
          rw [hr1, Nat.mul_add, Nat.mul_one, Nat.add_comm]
        have e6 : n - 1 = ((w + 3) / 4 - 0) +
            (w + 3) / 4 * ((h + 3) / 4 - 1 - (b + 1)) := by omega
        have e10 : m < n - 1 → bytes1 - bs < (m + 1) * bs ∧ bytes2 - bs < (m + 1) * bs := by
          intro hlt2
          have := hstop (by omega)
          omega
        refine ih (n - 1) 0 (b + 1) (ptr + bs) src1 src2 (bytes1 - bs) (bytes2 - bs) st2
          h2w h2h (by rw [h2x]) (by rw [h2y]; ring) (by omega) hbrow e6 (by omega)
          (by omega) (by omega) e10 (by omega) (by omega) (fun k hk => ?_)
        have hkk := hag (bs + k) (by omega)
        rw [← Nat.add_assoc] at hkk
        exact hkk
    · rw [if_neg hxw] at h2x h2y
      have hyh : ¬ st2.height ≤ st2.y := by
        rw [h2h, h2y]
        omega
      simp only [if_neg hyh]
      have hacol : a + 1 < (w + 3) / 4 := by omega
      have e6 : n - 1 = ((w + 3) / 4 - (a + 1)) +
          (w + 3) / 4 * ((h + 3) / 4 - 1 - b) := by omega
      have e10 : m < n - 1 → bytes1 - bs < (m + 1) * bs ∧ bytes2 - bs < (m + 1) * bs := by
        intro hlt2
        have := hstop (by omega)
        omega
      refine ih (n - 1) (a + 1) b (ptr + bs) src1 src2 (bytes1 - bs) (bytes2 - bs) st2
        h2w h2h (by rw [h2x]; ring) (by rw [h2y]) hacol hb e6 (by omega)
        (by omega) (by omega) e10 (by omega) (by omega) (fun k hk => ?_)
      have hkk := hag (bs + k) (by omega)
      rw [← Nat.add_assoc] at hkk
      exact hkk


/-- Reading inside the taken prefix is reading the original list. -/
theorem getD_take (l : List Nat) (n i : Nat) (h : i < n) :
    (l.take n).getD i 0 = l.getD i 0 := by
  rcases Nat.lt_or_ge i l.length with hl | hl
  · rw [List.getD_eq_getElem _ 0 (by simp only [List.length_take]; omega),
      List.getD_eq_getElem _ 0 hl, List.getElem_take]
  · rw [List.getD_eq_default _ 0 (by simp only [List.length_take]; omega),
      List.getD_eq_default _ 0 hl]

/-- The block loop consumes exactly `bs · min(len/bs, blockcount)` source
bytes: truncating the source there leaves the result unchanged. -/
theorem decodeLoopGo_take (f : List Nat → List Nat) (bs esz : Nat) (flip : Bool)
    (w h : Nat) (hw : 0 < w) (hh : 0 < h) (hbs : 0 < bs) (st : DState)
    (hsw : st.width = w) (hsh : st.height = h) (hsx : st.x = 0) (hsy : st.y = 0)
    (src : List Nat) :
    decodeLoopGo f bs esz src flip 0 src.length st =
      decodeLoopGo f bs esz
        (src.take (bs * min (src.length / bs) ((w + 3) / 4 * ((h + 3) / 4)))) flip 0
        (src.take (bs * min (src.length / bs) ((w + 3) / 4 * ((h + 3) / 4)))).length st := by
  set K := (w + 3) / 4 * ((h + 3) / 4) with hK
  set M := min (src.length / bs) K with hM
  have hmle : bs * M ≤ src.length := by
    calc bs * M ≤ bs * (src.length / bs) := Nat.mul_le_mul_left bs (Nat.min_le_left _ _)
      _ = src.length / bs * bs := Nat.mul_comm _ _
      _ ≤ src.length := Nat.div_mul_le_self _ _
  have hlen : (src.take (bs * M)).length = bs * M := by
    rw [List.length_take]
    omega
  have hcomm : bs * M = M * bs := Nat.mul_comm _ _
  have heq : K = ((w + 3) / 4 - 0) + (w + 3) / 4 * ((h + 3) / 4 - 1 - 0) := by
    have hr1 : (h + 3) / 4 = ((h + 3) / 4 - 1) + 1 := by omega
    rw [hK, Nat.sub_zero, Nat.sub_zero]
    conv_lhs => rw [hr1]
    rw [Nat.mul_add, Nat.mul_one, Nat.add_comm]
  have hdm := Nat.div_add_mod src.length bs
  have hmod : src.length % bs < bs := Nat.mod_lt _ hbs
  have hMsucc : (M + 1) * bs = M * bs + bs := Nat.succ_mul M bs
  have hstop : M < K → src.length < (M + 1) * bs ∧ bs * M < (M + 1) * bs := by
    intro hMK
    have hMeq : M = src.length / bs := by
      rcases Nat.le_total (src.length / bs) K with hc | hc
      · rw [hM, Nat.min_eq_left hc]
      · rw [hM, Nat.min_eq_right hc] at hMK ⊢
        omega
    have hceq : M * bs = src.length / bs * bs := by rw [hMeq]
    have hbig : src.length < src.length / bs * bs + bs := by
      have h2 : bs * (src.length / bs) = src.length / bs * bs := Nat.mul_comm _ _
      omega
    constructor
    · omega
    · omega
  rw [hlen]
  refine decodeLoopGo_congr f bs esz flip w h hw hh hbs M K 0 0 0 src
    (src.take (bs * M)) src.length (bs * M) st hsw hsh (by rw [hsx]) (by rw [hsy])
    (by omega) (by omega) heq (Nat.min_le_right _ _) (by omega) (by omega) hstop
    (by omega) (by omega) (fun k hk => ?_)
  rw [Nat.zero_add]
  exact (getD_take src (bs * M) k (by omega)).symm


/-- With positive dimensions and an accepted format, `decode_rust` returns
a buffer. -/
theorem decode_rust_ok (src : List Nat) (w h : Nat) (enc : BcnEncoding)
    (fmt : BcnDecoderFormat) (hw : 0 < w) (hh : 0 < h) (hf : fmt = .LUM → enc = .Bc4) :
    ∃ buf, decode_rust src w h enc fmt = .ok buf := by
  rcases hsw : swizzleFor fmt enc with e | swz
  · exfalso
    cases fmt <;> cases enc <;> simp_all [swizzleFor]
  · unfold decode_rust
    rw [if_neg (by omega), hsw]
    exact ⟨_, rfl⟩

/-- C9: `decode_rust` never returns `ImageDecodingError`; with valid
dimensions and format, a source shorter than one block yields the untouched
zero-initialized buffer, any source shorter than the full block count still
yields `Ok` (the loop stops when fewer bytes than one block remain), and
the output only depends on the bytes the block loop consumes
(`blockSize · min(len/blockSize, ⌈w/4⌉·⌈h/4⌉)`). -/
theorem c9_no_image_decoding_error :
    (∀ (src : List Nat) (w h : Nat) (enc : BcnEncoding) (fmt : BcnDecoderFormat),
      decode_rust src w h enc fmt ≠ .error .ImageDecodingError) ∧
    (∀ (src : List Nat) (w h : Nat) (enc : BcnEncoding) (fmt : BcnDecoderFormat),
      0 < w → 0 < h → (fmt = .LUM → enc = .Bc4) → src.length < blockSize enc →
      decode_rust src w h enc fmt = .ok (List.replicate (expectedDstSize enc w h) 0)) ∧
    (∀ (src : List Nat) (w h : Nat) (enc : BcnEncoding) (fmt : BcnDecoderFormat),
      0 < w → 0 < h → (fmt = .LUM → enc = .Bc4) →
      src.length < blockSize enc * ((w + 3) / 4 * ((h + 3) / 4)) →
      ∃ buf, decode_rust src w h enc fmt = .ok buf) ∧
    (∀ (src : List Nat) (w h : Nat) (enc : BcnEncoding) (fmt : BcnDecoderFormat),
      0 < w → 0 < h →
      decode_rust src w h enc fmt =
        decode_rust (src.take (blockSize enc *
          min (src.length / blockSize enc) ((w + 3) / 4 * ((h + 3) / 4)))) w h enc fmt) := by
  refine ⟨fun src w h enc fmt => ?_, fun src w h enc fmt hw hh hf hshort => ?_,
    fun src w h enc fmt hw hh hf _ => decode_rust_ok src w h enc fmt hw hh hf,
    fun src w h enc fmt hw hh => ?_⟩
  · by_cases hwh : w = 0 ∨ h = 0
    · simp [decode_rust, hwh]
    · cases fmt <;> cases enc <;> simp [decode_rust, swizzleFor, hwh]
  · rcases hsw : swizzleFor fmt enc with e | swz
    · exfalso
      cases fmt <;> cases enc <;> simp_all [swizzleFor]
    · unfold decode_rust
      rw [if_neg (by omega), hsw]
      cases enc <;>
        · simp only [decode_bcn]
          rw [decodeLoopGo_eq, if_neg (by omega), if_pos (by simpa [blockSize] using hshort)]
          simp [expectedDstSize, Nat.shiftRight_eq_div_pow, Nat.shiftLeft_eq]
  · unfold decode_rust
    rw [if_neg (by omega), if_neg (by omega)]
    cases hsw : swizzleFor fmt enc with
    | error e => rfl
    | ok swz =>
      cases enc <;>
        · simp only [decode_bcn, blockSize]
          refine congrArg (fun st0 : DState => (Except.ok st0.buffer : Except Error (List Nat))) ?_
          exact decodeLoopGo_take _ _ _ _ w h hw hh (by norm_num) _ rfl rfl rfl rfl src


/-- Witness for C9: the empty source with valid arguments decodes to the
zero buffer. -/
theorem c9_no_image_decoding_error_witness :
    decode_rust [] 1 1 .Bc1 .RGBA = .ok (List.replicate (expectedDstSize .Bc1 1 1) 0) :=
  c9_no_image_decoding_error.2.1 [] 1 1 .Bc1 .RGBA (by decide) (by decide) (by decide)
    (by decide)

theorem length_applyP (s : Nat) (b : List Nat) : (applyP s b).length = b.length := by
  simp [applyP]

theorem getD_applyP (s : Nat) (b : List Nat) (i : Nat) :
    (applyP s b).getD i 0 =
      if i < b.length then selByte s (i % 4) (fun k => b.getD (4 * (i / 4) + k) 0) else 0 := by
  rcases Nat.lt_or_ge i b.length with hi | hi
  · rw [List.getD_eq_getElem _ 0 (by simp [applyP]; omega), if_pos hi]
    simp [applyP]
  · rw [List.getD_eq_default _ 0 (by simp [applyP]; omega), if_neg (by omega)]

theorem getD_set (l : List Nat) (j i v : Nat) :
    (l.set j v).getD i 0 = if j = i ∧ i < l.length then v else l.getD i 0 := by
  induction l generalizing j i with
  | nil => simp
  | cons a t ih =>
    cases j with
    | zero =>
      cases i with
      | zero => simp
      | succ i => simp
    | succ j =>
      cases i with
      | zero => simp
      | succ i =>
        simp only [List.set_cons_succ, List.getD_cons_succ, ih, List.length_cons]
        split_ifs <;> first | rfl | omega
  
theorem getD_copyRange (n : Nat) :
    ∀ (dst src : List Nat) (dOff sOff i : Nat),
      (copyRange dst dOff src sOff n).getD i 0 =
        if dOff ≤ i ∧ i < dOff + n ∧ i < dst.length then src.getD (sOff + (i - dOff)) 0
        else dst.getD i 0 := by
  induction n with
  | zero =>
    intro dst src dOff sOff i
    show dst.getD i 0 = _
    rw [if_neg (by omega)]
  | succ n ih =>
    intro dst src dOff sOff i
    show (copyRange (dst.set dOff (src.getD sOff 0)) (dOff + 1) src (sOff + 1) n).getD i 0 = _
    rw [ih, getD_set]
    simp only [List.length_set]
    split_ifs <;> first | rfl | omega | (congr 1; omega)

theorem eq_of_getD (l1 l2 : List Nat) (hlen : l1.length = l2.length)
    (h : ∀ i, l1.getD i 0 = l2.getD i 0) : l1 = l2 := by
  apply List.ext_getElem hlen
  intro i h1 h2
  have hi := h i
  rw [List.getD_eq_getElem _ 0 h1, List.getD_eq_getElem _ 0 h2] at hi
  exact hi

theorem selByte_congr (s j : Nat) (f g : Nat → Nat) (h : ∀ k, k < 4 → f k = g k) :
    selByte s j f = selByte s j g := by
  unfold selByte
  split_ifs <;> first | rfl | exact h _ (by norm_num)

theorem applyP_replicate_zero (s n : Nat) :
    applyP s (List.replicate n 0) = List.replicate n 0 := by
  apply eq_of_getD
  · simp [length_applyP]
  · intro i
    rw [getD_applyP]
    have hz : ∀ j : Nat, (List.replicate n (0 : Nat)).getD j 0 = 0 := by
      intro j
      rcases Nat.lt_or_ge j n with hj | hj
      · rw [List.getD_eq_getElem _ 0 (by simpa using hj)]
        simp
      · rw [List.getD_eq_default _ 0 (by simpa using hj)]
    rw [hz i]
    split_ifs with hi
    · unfold selByte
      split_ifs <;> simp [hz]
    · rfl


theorem copyRange_one (dst src : List Nat) (d so : Nat) :
    copyRange dst d src so 1 = dst.set d (src.getD so 0) := rfl

theorem swizzle_copy_applyP (s f0 f1 f2 f3 : Nat)
    (hf0 : s &&& 3 = f0) (hf1 : (s &&& 0x0c) >>> 2 = f1)
    (hf2 : (s &&& 0x30) >>> 4 = f2) (hf3 : (s &&& 0xc0) >>> 6 = f3)
    (hs0 : ¬(s = 0 ∨ s = 0xe4))
    (hlt : f0 < 4 ∧ f1 < 4 ∧ f2 < 4 ∧ f3 < 4)
    (hne : f0 ≠ f1 ∧ f0 ≠ f2 ∧ f0 ≠ f3 ∧ f1 ≠ f2 ∧ f1 ≠ f3 ∧ f2 ≠ f3)
    (b col : List Nat) (dOff cOff : Nat) (hal : dOff % 4 = 0)
    (hq : dOff + 4 ≤ b.length) :
    swizzle_copy s (applyP s b) dOff col cOff 4 =
      applyP s (copyRange b dOff col cOff 4) := by
  obtain ⟨hlt0, hlt1, hlt2, hlt3⟩ := hlt
  obtain ⟨hne01, hne02, hne03, hne12, hne13, hne23⟩ := hne
  have hLHS : swizzle_copy s (applyP s b) dOff col cOff 4 =
      ((((applyP s b).set (dOff + f0) (col.getD cOff 0)).set (dOff + f1)
        (col.getD (cOff + 1) 0)).set (dOff + f2) (col.getD (cOff + 2) 0)).set
        (dOff + f3) (col.getD (cOff + 3) 0) := by
    unfold swizzle_copy
    rw [if_neg hs0]
    show copyRange (copyRange (copyRange (copyRange (applyP s b)
        (dOff + 1 * (s &&& 3)) col cOff 1) (dOff + 1 * ((s &&& 0x0c) >>> 2)) col (cOff + 1) 1)
        (dOff + 1 * ((s &&& 0x30) >>> 4)) col (cOff + 2 * 1) 1)
        (dOff + 1 * ((s &&& 0xc0) >>> 6)) col (cOff + 3 * 1) 1 = _
    rw [hf0, hf1, hf2, hf3]
    simp only [copyRange_one, Nat.one_mul, Nat.mul_one]
  rw [hLHS]
  apply eq_of_getD
  · simp only [List.length_set, length_applyP, length_copyRange]
  · intro i
    rw [getD_set, getD_set, getD_set, getD_set, getD_applyP, getD_applyP,
      length_copyRange]
    simp only [List.length_set, length_applyP]
    by_cases hil : i < b.length
    · by_cases hgr : dOff ≤ i ∧ i < dOff + 4
      · have hdiv : 4 * (i / 4) = dOff := by omega
        have hcover : f0 = i % 4 ∨ f1 = i % 4 ∨ f2 = i % 4 ∨ f3 = i % 4 := by omega
        rw [if_pos hil, if_pos hil]
        rcases hcover with hk | hk | hk | hk
        · rw [if_neg (by omega), if_neg (by omega), if_neg (by omega), if_pos (by omega)]
          show _ = selByte s (i % 4) _
          unfold selByte
          rw [hf0, hf1, hf2, hf3, if_pos hk]
          beta_reduce
          rw [getD_copyRange, if_pos (by omega)]
          congr 1
          omega
        · rw [if_neg (by omega), if_neg (by omega), if_pos (by omega)]
          show _ = selByte s (i % 4) _
          unfold selByte
          rw [hf0, hf1, hf2, hf3, if_neg (by omega), if_pos hk]
          beta_reduce
          rw [getD_copyRange, if_pos (by omega)]
          congr 1
          omega
        · rw [if_neg (by omega), if_pos (by omega)]
          show _ = selByte s (i % 4) _
          unfold selByte
          rw [hf0, hf1, hf2, hf3, if_neg (by omega), if_neg (by omega), if_pos hk]
          beta_reduce
          rw [getD_copyRange, if_pos (by omega)]
          congr 1
          omega
        · rw [if_pos (by omega)]
          show _ = selByte s (i % 4) _
          unfold selByte
          rw [hf0, hf1, hf2, hf3, if_neg (by omega), if_neg (by omega), if_neg (by omega),
            if_pos hk]
          beta_reduce
          rw [getD_copyRange, if_pos (by omega)]
          congr 1
          omega
      · rw [if_neg (by omega), if_neg (by omega), if_neg (by omega), if_neg (by omega),
          if_pos hil, if_pos hil]
        apply selByte_congr
        intro k hk
        rw [getD_copyRange, if_neg (by omega)]
    · rw [if_neg (by omega), if_neg (by omega), if_neg (by omega), if_neg (by omega),
        if_neg hil, if_neg hil]



theorem mapState_buffer (s : Nat) (st : DState) :
    (mapState s st).buffer = applyP s st.buffer := rfl

theorem mapState_width (s : Nat) (st : DState) : (mapState s st).width = st.width := rfl

theorem mapState_height (s : Nat) (st : DState) : (mapState s st).height = st.height := rfl

theorem mapState_x (s : Nat) (st : DState) : (mapState s st).x = st.x := rfl

theorem mapState_y (s : Nat) (st : DState) : (mapState s st).y = st.y := rfl

theorem mapState_ystep (s : Nat) (st : DState) : (mapState s st).ystep = st.ystep := rfl

theorem mapState_swizzle (s : Nat) (st : DState) : (mapState s st).swizzle = s := rfl

theorem swizzle_copy_applyP3 (s : Nat) (hs : s = 0xc6 ∨ s = 0x93 ∨ s = 0x1b)
    (b col : List Nat) (dOff cOff : Nat) (hal : dOff % 4 = 0)
    (hq : dOff + 4 ≤ b.length) :
    swizzle_copy s (applyP s b) dOff col cOff 4 =
      applyP s (copyRange b dOff col cOff 4) := by
  rcases hs with rfl | rfl | rfl <;>
    exact swizzle_copy_applyP _ _ _ _ _ rfl rfl rfl rfl (by decide) (by decide) (by decide)
      b col dOff cOff hal hq

theorem cell_applyP (s : Nat) (hs : s = 0xc6 ∨ s = 0x93 ∨ s = 0x1b)
    (b col : List Nat) (w h yr xx cOff : Nat) (hb : b.length = 4 * w * h)
    (hyr : yr < h) (hxx : xx < w) :
    swizzle_copy s (applyP s b) (4 * w * yr + 4 * xx) col cOff 4 =
      applyP s (swizzle_copy 0xe4 b (4 * w * yr + 4 * xx) col cOff 4) := by
  have hfast : swizzle_copy 0xe4 b (4 * w * yr + 4 * xx) col cOff 4 =
      copyRange b (4 * w * yr + 4 * xx) col cOff 4 := by
    unfold swizzle_copy
    rw [if_pos (by norm_num)]
  rw [hfast]
  have e1 : 4 * w * yr = 4 * (w * yr) := by ring
  have e2 : w * (yr + 1) = w * yr + w := Nat.mul_succ w yr
  have e3 : 4 * w * h = 4 * (w * h) := by ring
  have hms : w * (yr + 1) ≤ w * h := Nat.mul_le_mul_left w hyr
  exact swizzle_copy_applyP3 s hs b col _ cOff (by omega) (by omega)

theorem foldl_applyP {α : Type} (s : Nat) (L : Nat) (step1 step2 : List Nat → α → List Nat)
    (l : List α)
    (hP : ∀ buf x, buf.length = L → x ∈ l → (step1 buf x).length = L)
    (hcomm : ∀ buf x, buf.length = L → x ∈ l →
      step2 (applyP s buf) x = applyP s (step1 buf x)) :
    ∀ buf, buf.length = L → l.foldl step2 (applyP s buf) = applyP s (l.foldl step1 buf) := by
  induction l with
  | nil => intro buf _; rfl
  | cons a t ih =>
    intro buf hbuf
    rw [List.foldl_cons, List.foldl_cons, hcomm buf a hbuf (List.mem_cons_self a t)]
    exact ih (fun b x hb hx => hP b x hb (List.mem_cons_of_mem a hx))
      (fun b x hb hx => hcomm b x hb (List.mem_cons_of_mem a hx))
      (step1 buf a) (hP buf a hbuf (List.mem_cons_self a t))

theorem put_block_rows_applyP (s : Nat) (hs : s = 0xc6 ∨ s = 0x93 ∨ s = 0x1b)
    (st st' : DState) (col : List Nat) (flip : Bool)
    (hb : st'.buffer = applyP s st.buffer) (hsw' : st'.swizzle = s)
    (hw : st'.width = st.width) (hh : st'.height = st.height)
    (hx : st'.x = st.x) (hy : st'.y = st.y) (hys : st'.ystep = st.ystep)
    (hsw : st.swizzle = 0xe4)
    (hlen : st.buffer.length = 4 * st.width * st.height)
    (hinv : flip = false → st.x + 4 ≤ st.width ∧ st.y + 4 ≤ st.height) :
    put_block_rows st' col 4 flip = applyP s (put_block_rows st col 4 flip) := by
  unfold put_block_rows
  rw [hb, hsw', hw, hh, hx, hy, hys, hsw]
  refine foldl_applyP s (4 * st.width * st.height) _ _ (List.range 4) ?_ ?_ st.buffer hlen
  · intro buf j hbuf hmem
    beta_reduce
    rw [← hbuf]
    cases flip
    · simp only [Bool.false_eq_true, if_false]
      exact foldl_length _ _ (fun b k => length_swizzle_copy ..) buf
    · simp only [if_true]
      split
      · rfl
      · refine foldl_length _ _ (fun b i => ?_) buf
        split
        · rfl
        · exact length_swizzle_copy ..
  · intro buf j hbuf hmem
    have hj : j < 4 := List.mem_range.mp hmem
    beta_reduce
    cases flip
    · -- unflipped rows: no clipping, invariant gives in-bounds
      obtain ⟨hxw, hyh⟩ := hinv rfl
      simp only [Bool.false_eq_true, if_false]
      have hyr : (if st.ystep < 0 then st.height - (st.y + j) - 1 else st.y + j) <
          st.height := by
        split <;> omega
      refine foldl_applyP s (4 * st.width * st.height) _ _ (List.range 4) ?_ ?_ buf hbuf
      · intro b k hb2 hk
        beta_reduce
        rw [← hb2]
        exact length_swizzle_copy ..
      · intro b k hb2 hk
        have hk4 : k < 4 := List.mem_range.mp hk
        beta_reduce
        have he : ∀ m : Nat,
            4 * st.width * (if st.ystep < 0 then st.height - (st.y + j) - 1 else st.y + j) +
              4 * st.x + 4 * m =
            4 * st.width * (if st.ystep < 0 then st.height - (st.y + j) - 1 else st.y + j) +
              4 * (st.x + m) := by
          intro m
          ring
        rw [he k]
        exact cell_applyP s hs b col st.width st.height _ (st.x + k) _ hb2 hyr (by omega)
    · -- flipped rows: row and column clipping
      simp only [if_true]
      by_cases hyj : st.height ≤ st.y + j
      · rw [if_pos hyj, if_pos hyj]
      · rw [if_neg hyj, if_neg hyj]
        have hyr : (if st.ystep < 0 then st.height - (st.y + j) - 1 else st.y + j) <
            st.height := by
          split <;> omega
        refine foldl_applyP s (4 * st.width * st.height) _ _ (List.range 4) ?_ ?_ buf hbuf
        · intro b i hb2 hi
          beta_reduce
          rw [← hb2]
          split
          · rfl
          · exact length_swizzle_copy ..
        · intro b i hb2 hi
          beta_reduce
          by_cases hxi : st.width ≤ st.x + i
          · rw [if_pos hxi, if_pos hxi]
          · rw [if_neg hxi, if_neg hxi]
            exact cell_applyP s hs b col st.width st.height _ (st.x + i) _ hb2 hyr
              (by omega)



theorem put_block_swizzle (st : DState) (col : List Nat) (esz : Nat) (flip : Bool) :
    (put_block st col esz flip).swizzle = st.swizzle := by
  unfold put_block
  split <;> rfl

theorem put_block_applyP (s : Nat) (hs : s = 0xc6 ∨ s = 0x93 ∨ s = 0x1b)
    (st : DState) (col : List Nat) (flip : Bool)
    (hsw : st.swizzle = 0xe4)
    (hlen : st.buffer.length = 4 * st.width * st.height)
    (hinv : flip = false → st.x + 4 ≤ st.width ∧ st.y + 4 ≤ st.height) :
    put_block (mapState s st) col 4 flip = mapState s (put_block st col 4 flip) := by
  have hrows : put_block_rows (mapState s st) col 4 flip =
      applyP s (put_block_rows st col 4 flip) :=
    put_block_rows_applyP s hs st (mapState s st) col flip rfl rfl rfl rfl rfl rfl rfl
      hsw hlen hinv
  simp only [put_block]
  rw [mapState_width, mapState_x, hrows]
  by_cases hcond : st.width ≤ st.x + 4
  · rw [if_pos hcond, if_pos hcond]
    rfl
  · rw [if_neg hcond, if_neg hcond]
    rfl


theorem decodeLoopGo_applyP (s : Nat) (hs : s = 0xc6 ∨ s = 0x93 ∨ s = 0x1b)
    (f : List Nat → List Nat) (bs : Nat) (source : List Nat) (flip : Bool) :
    ∀ bytes ptr st, st.swizzle = 0xe4 →
      st.buffer.length = 4 * st.width * st.height →
      (flip = false → st.width % 4 = 0 ∧ st.height % 4 = 0 ∧ st.x % 4 = 0 ∧
        st.y % 4 = 0 ∧ st.x + 4 ≤ st.width ∧ st.y + 4 ≤ st.height) →
      decodeLoopGo f bs 4 source flip ptr bytes (mapState s st) =
        mapState s (decodeLoopGo f bs 4 source flip ptr bytes st) := by
  intro bytes
  induction bytes using Nat.strong_induction_on with
  | _ bytes ih =>
    intro ptr st hsw hlen hinv
    rw [decodeLoopGo_eq f bs 4 source flip ptr bytes (mapState s st),
      decodeLoopGo_eq f bs 4 source flip ptr bytes st]
    by_cases hbs : bs = 0
    · rw [if_pos hbs, if_pos hbs]
    · rw [if_neg hbs, if_neg hbs]
      by_cases hblt : bytes < bs
      · rw [if_pos hblt, if_pos hblt]
      · rw [if_neg hblt, if_neg hblt]
        have hpb := put_block_applyP s hs st (f ((source.drop ptr).take bs)) flip hsw hlen
          (fun hf => ⟨(hinv hf).2.2.2.2.1, (hinv hf).2.2.2.2.2⟩)
        rw [hpb, mapState_height, mapState_y]
        by_cases hdone : (put_block st (f ((source.drop ptr).take bs)) 4 flip).height ≤
            (put_block st (f ((source.drop ptr).take bs)) 4 flip).y
        · rw [if_pos hdone, if_pos hdone]
        · rw [if_neg hdone, if_neg hdone]
          have hdone' := hdone
          rw [put_block_height, put_block_y] at hdone'
          refine ih (bytes - bs) (by omega) (ptr + bs) _ ?_ ?_ ?_
          · rw [put_block_swizzle]
            exact hsw
          · rw [put_block_buffer_length, put_block_width, put_block_height]
            exact hlen
          · intro hf
            obtain ⟨hw4, hh4, hx4, hy4, hxw, hyh⟩ := hinv hf
            rw [put_block_width, put_block_height, put_block_x, put_block_y]
            split_ifs at hdone' ⊢ <;> omega


theorem or_zero_split (x y : Nat) (h : x ||| y = 0) : x = 0 ∧ y = 0 := by
  constructor <;> apply Nat.eq_of_testBit_eq <;> intro i <;>
    have h2 := congrArg (fun n => n.testBit i) h <;>
    simp only [Nat.testBit_or, Nat.zero_testBit, Bool.or_eq_false_iff] at h2 <;>
    simp only [Nat.zero_testBit]
  · exact h2.1
  · exact h2.2

theorem decode_bcn_applyP (s : Nat) (hs : s = 0xc6 ∨ s = 0x93 ∨ s = 0x1b)
    (st : DState) (source : List Nat) (enc : BcnEncoding) (flip : Bool)
    (henc : enc = .Bc1 ∨ enc = .Bc2 ∨ enc = .Bc3 ∨ enc = .Bc5)
    (hsw : st.swizzle = 0xe4)
    (hlen : st.buffer.length = 4 * st.width * st.height)
    (hinv : flip = false → st.width % 4 = 0 ∧ st.height % 4 = 0 ∧ st.x % 4 = 0 ∧
      st.y % 4 = 0 ∧ st.x + 4 ≤ st.width ∧ st.y + 4 ≤ st.height) :
    decode_bcn (mapState s st) source enc flip = mapState s (decode_bcn st source enc flip) := by
  rcases henc with rfl | rfl | rfl | rfl <;>
    exact decodeLoopGo_applyP s hs _ _ source flip source.length 0 st hsw hlen hinv

theorem decode_state_applyP (s : Nat) (hs : s = 0xc6 ∨ s = 0x93 ∨ s = 0x1b)
    (src : List Nat) (w h : Nat) (enc : BcnEncoding)
    (henc : enc = .Bc1 ∨ enc = .Bc2 ∨ enc = .Bc3 ∨ enc = .Bc5)
    (hw : 0 < w) (hh : 0 < h) :
    decode_bcn
      { buffer := List.replicate (4 * w * h) 0
        width := w
        height := h
        x := 0
        y := 0
        ystep := if ((w &&& 3) ||| (h &&& 3)) != 0 then -1 else 1
        sign := false
        swizzle := s } src enc (((w &&& 3) ||| (h &&& 3)) != 0) =
      mapState s (decode_bcn
      { buffer := List.replicate (4 * w * h) 0
        width := w
        height := h
        x := 0
        y := 0
        ystep := if ((w &&& 3) ||| (h &&& 3)) != 0 then -1 else 1
        sign := false
        swizzle := 0xe4 } src enc (((w &&& 3) ||| (h &&& 3)) != 0)) := by
  have hst :
      ({ buffer := List.replicate (4 * w * h) 0
         width := w
         height := h
         x := 0
         y := 0
         ystep := if ((w &&& 3) ||| (h &&& 3)) != 0 then -1 else 1
         sign := false
         swizzle := s } : DState) =
      mapState s
      { buffer := List.replicate (4 * w * h) 0
        width := w
        height := h
        x := 0
        y := 0
        ystep := if ((w &&& 3) ||| (h &&& 3)) != 0 then -1 else 1
        sign := false
        swizzle := 0xe4 } := by
    simp only [mapState, applyP_replicate_zero]
  rw [hst]
  refine decode_bcn_applyP s hs _ src enc _ henc rfl (by simp) ?_
  intro hf
  have hzero : (w &&& 3) ||| (h &&& 3) = 0 := by
    simpa using hf
  obtain ⟨hwz, hhz⟩ := or_zero_split _ _ hzero
  have hand_w : w &&& 3 = w % 4 := by
    simpa using Nat.and_pow_two_sub_one_eq_mod w 2
  have hand_h : h &&& 3 = h % 4 := by
    simpa using Nat.and_pow_two_sub_one_eq_mod h 2
  exact ⟨show w % 4 = 0 by omega, show h % 4 = 0 by omega, show 0 % 4 = 0 by omega,
    show 0 % 4 = 0 by omega, show 0 + 4 ≤ w by omega, show 0 + 4 ≤ h by omega⟩

theorem decode_rust_applyP_core (src : List Nat) (w h : Nat) (enc : BcnEncoding)
    (fmt : BcnDecoderFormat) (s : Nat)
    (hs : s = 0xc6 ∨ s = 0x93 ∨ s = 0x1b)
    (hswz : swizzleFor fmt enc = .ok s)
    (henc : enc = .Bc1 ∨ enc = .Bc2 ∨ enc = .Bc3 ∨ enc = .Bc5) :
    decode_rust src w h enc fmt = Except.map (applyP s) (decode_rust src w h enc .RGBA) := by
  by_cases hwh : w = 0 ∨ h = 0
  · unfold decode_rust
    rw [if_pos hwh, if_pos hwh]
    rfl
  · have hw : 0 < w := by omega
    have hh : 0 < h := by omega
    rcases henc with rfl | rfl | rfl | rfl <;>
    · simp only [decode_rust, hswz]
      rw [if_neg hwh, if_neg hwh]
      rw [decode_state_applyP s hs src w h _ (by simp) hw hh, mapState_buffer]
      rfl



/-- C6: for every source, every width and height, every encoding in
{BC1, BC2, BC3, BC5} and every format in {BGRA, ARGB, ABGR}, applying the
per-4-byte-pixel channel permutation `P(format)` to the output of
`decode(src, w, h, BCk, RGBA)` yields exactly the output of
`decode(src, w, h, BCk, format)` (on error outputs both sides agree
unchanged, so the law is stated over the full `Except` result). -/
theorem c6_swizzle_law (src : List Nat) (w h : Nat) (enc : BcnEncoding)
    (fmt : BcnDecoderFormat)
    (henc : enc = .Bc1 ∨ enc = .Bc2 ∨ enc = .Bc3 ∨ enc = .Bc5)
    (hfmt : fmt = .BGRA ∨ fmt = .ARGB ∨ fmt = .ABGR) :
    decode_rust src w h enc fmt =
      Except.map (applyP (formatSwizzle fmt)) (decode_rust src w h enc .RGBA) := by
  rcases hfmt with rfl | rfl | rfl
  · exact decode_rust_applyP_core src w h enc _ _ (Or.inl rfl) rfl henc
  · exact decode_rust_applyP_core src w h enc _ _ (Or.inr (Or.inl rfl)) rfl henc
  · exact decode_rust_applyP_core src w h enc _ _ (Or.inr (Or.inr rfl)) rfl henc

theorem c6_swizzle_law_witness :
    (BcnEncoding.Bc1 = .Bc1 ∨ BcnEncoding.Bc1 = .Bc2 ∨ BcnEncoding.Bc1 = .Bc3 ∨
      BcnEncoding.Bc1 = .Bc5) ∧
    (BcnDecoderFormat.BGRA = .BGRA ∨ BcnDecoderFormat.BGRA = .ARGB ∨
      BcnDecoderFormat.BGRA = .ABGR) ∧
    decode_rust (List.range 8) 4 4 .Bc1 .BGRA =
      Except.map (applyP (formatSwizzle .BGRA)) (decode_rust (List.range 8) 4 4 .Bc1 .RGBA) :=
  ⟨Or.inl rfl, Or.inl rfl,
    c6_swizzle_law (List.range 8) 4 4 .Bc1 .BGRA (Or.inl rfl) (Or.inl rfl)⟩

end Bcn
